import Mathlib

/-!
Verification of the z3 constraint back-end of pytea
(`src/packages/pytea/z3wrapper/json2z3.py`).

The development shallowly embeds:
  * the z3 expression ASTs the back-end builds (`ZX`), together with a
    denotational semantics (`Holds` / `evalT`);
  * the JSON documents the back-end consumes (`Doc`);
  * the encoder (`Ctr.encode` and friends) as total Lean functions in an
    error monad, transliterated branch by branch from the Python source;
  * the path classifier (`CtrSet.analysis`, `pathCondCheck`,
    `checkValidity`, `checkSat`) parameterised by a solver oracle
    (`SolverO`) standing for the external z3 engine.

Python exceptions are modelled with `Except`; z3's implicit numeric
coercions are modelled by the `mk*` smart constructors; z3's n-ary
`And`/`Or` nodes are modelled as right folds with explicit terminator
constructors (`andEnd` / `orEnd`), which preserves structural identity
of distinct argument lists.
-/

/-! ## z3 expression ASTs -/

/-- The z3 expressions built by `json2z3.py`.  Python ints and bools that
z3py implicitly coerces to z3 values appear as `intVal` / `boolVal`.
`andNode`/`andEnd` (resp. `orNode`/`orEnd`) encode z3's n-ary `And(l)`
(resp. `Or`) applied to an argument list, as a fold; see `zAnd`/`zOr`. -/
inductive ZX where
  | intVal (n : ℤ)
  | realVal (q : ℚ)
  | boolVal (b : Bool)
  | intVar (s : String)
  | realVar (s : String)
  | boolVar (s : String)
  | arrVar (s : String)
  | addF (a b : ZX)
  | subF (a b : ZX)
  | mulF (a b : ZX)
  | divF (a b : ZX)
  | modF (a b : ZX)
  | negF (a : ZX)
  | toRealF (a : ZX)
  | toIntF (a : ZX)
  | iteF (c a b : ZX)
  | eqF (a b : ZX)
  | neF (a b : ZX)
  | ltF (a b : ZX)
  | leF (a b : ZX)
  | geF (a b : ZX)
  | notF (a : ZX)
  | andNode (a rest : ZX)
  | andEnd
  | orNode (a rest : ZX)
  | orEnd
  | impF (a b : ZX)
  | allF (x : String) (body : ZX)
  | lamF (x : String) (body : ZX)
  | selF (a i : ZX)
  | storeF (a i v : ZX)
  | constArrF (v : ZX)
  | prodF (a lb ub : ZX)
  deriving DecidableEq, Repr

/-- z3's `And(list)`: one n-ary conjunction node over the list. -/
def zAnd (l : List ZX) : ZX := l.foldr ZX.andNode ZX.andEnd

/-- z3's `Or(list)`: one n-ary disjunction node over the list. -/
def zOr (l : List ZX) : ZX := l.foldr ZX.orNode ZX.orEnd

/-- z3 sorts relevant to the encoder. -/
inductive ZSort where
  | int
  | real
  | bool
  | array
  deriving DecidableEq, Repr

/-- The z3 sort of an expression (syntax-directed, as z3's `is_int` /
`is_real` observe it on the well-sorted terms built by the encoder). -/
def ZX.sortOf : ZX → ZSort
  | .intVal _ => .int
  | .realVal _ => .real
  | .boolVal _ => .bool
  | .intVar _ => .int
  | .realVar _ => .real
  | .boolVar _ => .bool
  | .arrVar _ => .array
  | .addF a _ => a.sortOf
  | .subF a _ => a.sortOf
  | .mulF a _ => a.sortOf
  | .divF a _ => a.sortOf
  | .modF _ _ => .int
  | .negF a => a.sortOf
  | .toRealF _ => .real
  | .toIntF _ => .int
  | .iteF _ a _ => a.sortOf
  | .eqF _ _ => .bool
  | .neF _ _ => .bool
  | .ltF _ _ => .bool
  | .leF _ _ => .bool
  | .geF _ _ => .bool
  | .notF _ => .bool
  | .andNode _ _ => .bool
  | .andEnd => .bool
  | .orNode _ _ => .bool
  | .orEnd => .bool
  | .impF _ _ => .bool
  | .allF _ _ => .bool
  | .lamF _ _ => .array
  | .selF _ _ => .int
  | .storeF a _ _ => a.sortOf
  | .constArrF _ => .array
  | .prodF _ _ _ => .int

/-- z3py's `is_int`. -/
def ZX.isIntS (a : ZX) : Bool := a.sortOf = ZSort.int

/-- z3py's `is_real`. -/
def ZX.isRealS (a : ZX) : Bool := a.sortOf = ZSort.real

/-- z3py's implicit Int-to-Real coercion of mixed binary arithmetic and
comparison operands. -/
def coerce2 (a b : ZX) : ZX × ZX :=
  if a.sortOf = ZSort.real ∧ b.sortOf = ZSort.int then (a, ZX.toRealF b)
  else if a.sortOf = ZSort.int ∧ b.sortOf = ZSort.real then (ZX.toRealF a, b)
  else (a, b)

def mkAdd (a b : ZX) : ZX := let p := coerce2 a b; ZX.addF p.1 p.2
def mkSub (a b : ZX) : ZX := let p := coerce2 a b; ZX.subF p.1 p.2
def mkMul (a b : ZX) : ZX := let p := coerce2 a b; ZX.mulF p.1 p.2
def mkDiv (a b : ZX) : ZX := let p := coerce2 a b; ZX.divF p.1 p.2
def mkMod (a b : ZX) : ZX := let p := coerce2 a b; ZX.modF p.1 p.2
def mkEq (a b : ZX) : ZX := let p := coerce2 a b; ZX.eqF p.1 p.2
def mkNe (a b : ZX) : ZX := let p := coerce2 a b; ZX.neF p.1 p.2
def mkLt (a b : ZX) : ZX := let p := coerce2 a b; ZX.ltF p.1 p.2
def mkLe (a b : ZX) : ZX := let p := coerce2 a b; ZX.leF p.1 p.2
def mkGe (a b : ZX) : ZX := let p := coerce2 a b; ZX.geF p.1 p.2

/-- z3py's `If(c, t, e)`, which coerces the branches to a common sort. -/
def mkIte (c a b : ZX) : ZX := let p := coerce2 a b; ZX.iteF c p.1 p.2

/-- Source `z3_div`: `If(b != 0, a / b, -1)` (divide-by-zero guard). -/
def z3_div (a b : ZX) : ZX := mkIte (mkNe b (ZX.intVal 0)) (mkDiv a b) (ZX.intVal (-1))

/-- Source `z3_mod`: `If(b != 0, a % b, -1)`. -/
def z3_mod (a b : ZX) : ZX := mkIte (mkNe b (ZX.intVal 0)) (mkMod a b) (ZX.intVal (-1))

/-- Source `z3_min`: `If(b < a, b, a)`. -/
def z3_min (a b : ZX) : ZX := mkIte (mkLt b a) b a

/-- Source `z3_max`: `If(a < b, b, a)`. -/
def z3_max (a b : ZX) : ZX := mkIte (mkLt a b) b a

/-! ## Semantics of the z3 fragment used by the encoder -/

/-- Semantic values: integers, rationals (for z3 `Real`, of which only
rational operations occur in the encoding), booleans, and integer-indexed
integer arrays. -/
inductive Val where
  | i (n : ℤ)
  | r (q : ℚ)
  | b (x : Bool)
  | arr (f : ℤ → ℤ)

/-- An interpretation of the z3 symbols, split by sort (z3 declarations
carry their sort, so every symbol always denotes a value of its sort). -/
structure Env where
  ints : String → ℤ
  reals : String → ℚ
  bools : String → Bool
  arrs : String → ℤ → ℤ

/-- Update the integer interpretation at one name (used for the variables
bound by `ForAll` and `Lambda`, which are always of sort Int here). -/
def Env.updI (e : Env) (x : String) (n : ℤ) : Env :=
  { e with ints := fun y => if y = x then n else e.ints y }

def envZero : Env := ⟨fun _ => 0, fun _ => 0, fun _ => false, fun _ _ => 0⟩

open Classical in
/-- Classical (possibly undecidable) `if` on propositions. -/
noncomputable def pIf {α : Sort _} (p : Prop) (a b : α) : α := if p then a else b

theorem pIf_pos {α : Sort _} {p : Prop} (h : p) (a b : α) : pIf p a b = a := by
  simp [pIf, h]

theorem pIf_neg {α : Sort _} {p : Prop} (h : ¬p) (a b : α) : pIf p a b = b := by
  simp [pIf, h]

/-- The numeric content of a value, coerced to ℚ (z3's Int-to-Real cast). -/
def Val.numQ : Val → Option ℚ
  | .i n => some (n : ℚ)
  | .r q => some q
  | _ => none

/-- z3 equality on values (with the Int-to-Real coercion on numerics). -/
def valEq : Val → Val → Prop
  | .b x, .b y => x = y
  | .arr f, .arr g => f = g
  | .i m, .i n => m = n
  | .i m, .r q => (m : ℚ) = q
  | .r q, .i n => q = (n : ℚ)
  | .r p, .r q => p = q
  | _, _ => False

/-- Semantics of the recursive z3 function `prod(shape, lb, ub)`:
`if lb > ub then 1 else shape[lb] * prod(shape, lb+1, ub)`. -/
def prodFun (f : ℤ → ℤ) (lb ub : ℤ) : ℤ :=
  if h : lb > ub then 1
  else f lb * prodFun f (lb + 1) ub
termination_by (ub + 1 - lb).toNat
decreasing_by
  simp at h
  omega

/-- Integer content of an optional value, defaulting to 0.  Used only to
give `Lambda` bodies a total array denotation; the lambdas the encoder
builds always have integer-denoting bodies, so the default is never
observed on encoder output. -/
def intOf : Option Val → ℤ
  | some (.i n) => n
  | _ => 0

mutual

/-- Truth of a z3 boolean expression under an interpretation. -/
noncomputable def Holds (env : Env) : ZX → Prop
  | .boolVal x => x = true
  | .boolVar s => env.bools s = true
  | .notF a => ¬ Holds env a
  | .andNode a rest => Holds env a ∧ Holds env rest
  | .andEnd => True
  | .orNode a rest => Holds env a ∨ Holds env rest
  | .orEnd => False
  | .impF a b => Holds env a → Holds env b
  | .allF x body => ∀ n : ℤ, Holds (env.updI x n) body
  | .eqF a b =>
      match evalT env a, evalT env b with
      | some va, some vb => valEq va vb
      | _, _ => False
  | .neF a b =>
      match evalT env a, evalT env b with
      | some va, some vb => ¬ valEq va vb
      | _, _ => False
  | .ltF a b =>
      ∃ x y, (evalT env a).bind Val.numQ = some x ∧
        (evalT env b).bind Val.numQ = some y ∧ x < y
  | .leF a b =>
      ∃ x y, (evalT env a).bind Val.numQ = some x ∧
        (evalT env b).bind Val.numQ = some y ∧ x ≤ y
  | .geF a b =>
      ∃ x y, (evalT env a).bind Val.numQ = some x ∧
        (evalT env b).bind Val.numQ = some y ∧ y ≤ x
  | e => evalT env e = some (.b true)

/-- Value of a z3 expression under an interpretation.  Partial: `none` on
sort-incorrect applications (which z3 rejects at term-construction time;
they can appear here only in junk terms the encoder never builds). -/
noncomputable def evalT (env : Env) : ZX → Option Val
  | .intVal n => some (.i n)
  | .realVal q => some (.r q)
  | .boolVal x => some (.b x)
  | .intVar s => some (.i (env.ints s))
  | .realVar s => some (.r (env.reals s))
  | .boolVar s => some (.b (env.bools s))
  | .arrVar s => some (.arr (env.arrs s))
  | .addF a b =>
      match evalT env a, evalT env b with
      | some (.i m), some (.i n) => some (.i (m + n))
      | some (.i m), some (.r q) => some (.r (m + q))
      | some (.r p), some (.i n) => some (.r (p + n))
      | some (.r p), some (.r q) => some (.r (p + q))
      | _, _ => none
  | .subF a b =>
      match evalT env a, evalT env b with
      | some (.i m), some (.i n) => some (.i (m - n))
      | some (.i m), some (.r q) => some (.r (m - q))
      | some (.r p), some (.i n) => some (.r (p - n))
      | some (.r p), some (.r q) => some (.r (p - q))
      | _, _ => none
  | .mulF a b =>
      match evalT env a, evalT env b with
      | some (.i m), some (.i n) => some (.i (m * n))
      | some (.i m), some (.r q) => some (.r (m * q))
      | some (.r p), some (.i n) => some (.r (p * n))
      | some (.r p), some (.r q) => some (.r (p * q))
      | _, _ => none
  | .divF a b =>
      match evalT env a, evalT env b with
      | some (.i m), some (.i n) => some (.i (Int.ediv m n))
      | some (.r p), some (.r q) => some (.r (p / q))
      | some (.i m), some (.r q) => some (.r (m / q))
      | some (.r p), some (.i n) => some (.r (p / (n : ℚ)))
      | _, _ => none
  | .modF a b =>
      match evalT env a, evalT env b with
      | some (.i m), some (.i n) => some (.i (Int.emod m n))
      | _, _ => none
  | .negF a =>
      match evalT env a with
      | some (.i m) => some (.i (-m))
      | some (.r p) => some (.r (-p))
      | _ => none
  | .toRealF a =>
      match evalT env a with
      | some (.i m) => some (.r (m : ℚ))
      | _ => none
  | .toIntF a =>
      match evalT env a with
      | some (.r p) => some (.i ⌊p⌋)
      | _ => none
  | .iteF c a b => pIf (Holds env c) (evalT env a) (evalT env b)
  | .selF a i =>
      match evalT env a, evalT env i with
      | some (.arr f), some (.i n) => some (.i (f n))
      | _, _ => none
  | .storeF a i v =>
      match evalT env a, evalT env i, evalT env v with
      | some (.arr f), some (.i n), some (.i m) =>
          some (.arr (fun k => if k = n then m else f k))
      | _, _, _ => none
  | .constArrF v =>
      match evalT env v with
      | some (.i m) => some (.arr (fun _ => m))
      | _ => none
  | .lamF x body => some (.arr (fun n => intOf (evalT (env.updI x n) body)))
  | .prodF a lb ub =>
      match evalT env a, evalT env lb, evalT env ub with
      | some (.arr f), some (.i l), some (.i u) => some (.i (prodFun f l u))
      | _, _, _ => none
  | .eqF a b =>
      match evalT env a, evalT env b with
      | some va, some vb => some (.b (pIf (valEq va vb) true false))
      | _, _ => none
  | .neF a b =>
      match evalT env a, evalT env b with
      | some va, some vb => some (.b (pIf (valEq va vb) false true))
      | _, _ => none
  | .ltF a b =>
      match (evalT env a).bind Val.numQ, (evalT env b).bind Val.numQ with
      | some x, some y => some (.b (x < y))
      | _, _ => none
  | .leF a b =>
      match (evalT env a).bind Val.numQ, (evalT env b).bind Val.numQ with
      | some x, some y => some (.b (x ≤ y))
      | _, _ => none
  | .geF a b =>
      match (evalT env a).bind Val.numQ, (evalT env b).bind Val.numQ with
      | some x, some y => some (.b (y ≤ x))
      | _, _ => none
  | .notF a =>
      match evalT env a with
      | some (.b x) => some (.b (!x))
      | _ => none
  | .andNode a rest =>
      match evalT env a, evalT env rest with
      | some (.b x), some (.b y) => some (.b (x && y))
      | _, _ => none
  | .andEnd => some (.b true)
  | .orNode a rest =>
      match evalT env a, evalT env rest with
      | some (.b x), some (.b y) => some (.b (x || y))
      | _, _ => none
  | .orEnd => some (.b false)
  | .impF a b =>
      match evalT env a, evalT env b with
      | some (.b x), some (.b y) => some (.b (!x || y))
      | _, _ => none
  | .allF _ _ => none

end

/-- Satisfiability of one z3 boolean expression. -/
def Satisfiable (f : ZX) : Prop := ∃ env, Holds env f

/-- Joint satisfiability of a list of asserted expressions (the state of
one z3 `Solver`). -/
def SatL (l : List ZX) : Prop := ∃ env, ∀ f ∈ l, Holds env f

/-! ## The path classifier (`CtrSet` methods), over a solver oracle -/

/-- Answers of z3's `Solver.check`. -/
inductive SolverResult where
  | sat
  | unsat
  | unknown
  deriving DecidableEq, Repr

/-- The external z3 engine, as an oracle.  `check l` is the answer of a
fresh solver that has asserted exactly the expressions in `l` (in order);
`core l` is the unsat core it reports for the assumption list `l` of the
corresponding `check(*l)` call. -/
structure SolverO where
  check : List ZX → SolverResult
  core : List ZX → List ZX

/-- The oracle never answers wrongly: `sat` answers have a model and
`unsat` answers have none (`unknown` is always allowed). -/
def SoundCheck (S : SolverO) : Prop :=
  ∀ l, (S.check l = .sat → SatL l) ∧ (S.check l = .unsat → ¬ SatL l)

/-- The oracle never answers `unknown`. -/
def DecisiveCheck (S : SolverO) : Prop :=
  ∀ l, S.check l = .sat ∨ S.check l = .unsat

/-- The classification outcomes (`PathResult` in the source; `Unsat` is
reported to the user as an *Invalid* path, `DontKnow` as *Undecidable*). -/
inductive PRes where
  | Unreachable
  | Valid
  | Sat
  | Unsat
  | DontKnow
  deriving DecidableEq, Repr

/-- The `extras` dictionary of `CtrSet.analysis`: in the `Unreachable`
case `extras["conflict"]` holds a list of indices, in the `Unsat` /
`DontKnow` cases a single index. -/
structure Extras where
  conflictList : Option (List Nat) := none
  conflict : Option Nat := none
  undecide : Option Nat := none
  deriving DecidableEq, Repr

/-- A decoded `CtrSet`: the formula pool and the three index lists.
(The source stores `Ctr` objects; only their formulas matter here.) -/
structure CtrSetM where
  ctrPool : List ZX
  hardIdx : List Nat
  softIdx : List Nat
  pathIdx : List Nat
  deriving Repr

/-- `self.ctrPool[i].formula`; indices are in range in well-formed input
(out-of-range access raises in the source). -/
def poolGet (pool : List ZX) (i : Nat) : ZX := pool.getD i (ZX.boolVal true)

/-- `self.assumptions` (formulas of the hard constraints). -/
def assumptionsF (cs : CtrSetM) : List ZX := cs.hardIdx.map (poolGet cs.ctrPool)

/-- `self.pathCtrs`. -/
def pathF (cs : CtrSetM) : List ZX := cs.pathIdx.map (poolGet cs.ctrPool)

/-- `self.softCtrs`. -/
def softF (cs : CtrSetM) : List ZX := cs.softIdx.map (poolGet cs.ctrPool)

/-- `And(self.assumptions + self.pathCtrs)`, the reachability conjunction
checked by `pathCondCheck`. -/
def conjF (cs : CtrSetM) : ZX := zAnd (assumptionsF cs ++ pathF cs)

/-- First index of `ctrPool` whose formula is structurally equal to `c`
(the inner loop of `_findIndiceOfCtrs`; z3's `==`-in-`if` compares ASTs
structurally). -/
def firstMatch (pool : List ZX) (c : ZX) : Option Nat :=
  match pool with
  | [] => none
  | d :: rest =>
      if d = c then some 0
      else (firstMatch rest c).map (· + 1)

/-- `CtrSet._findIndiceOfCtrs`: first pool match of each given formula,
sorted ascending (`indice.sort()`). -/
def findIndiceOfCtrs (pool : List ZX) (ctrs : List ZX) : List Nat :=
  (ctrs.filterMap (firstMatch pool)).mergeSort (· ≤ ·)

/-- `CtrSet.pathCondCheck`: check `And(hard + path)` (with unsat-core
generation enabled); on `unsat` return the pool indices matching the
reported core, otherwise `None`. -/
def pathCondCheck (S : SolverO) (cs : CtrSetM) : Option (List Nat) :=
  if S.check [conjF cs] = .unsat then
    some (findIndiceOfCtrs cs.ctrPool (S.core [conjF cs]))
  else none

/-- `CtrSet.checkValidity` (`true` = the source's `"valid"`). -/
def checkValidity (S : SolverO) (cs : CtrSetM) : Bool :=
  let asm := assumptionsF cs ++ pathF cs
  if softF cs = [] then
    S.check [zAnd asm] = .sat
  else
    S.check [ZX.notF (ZX.impF (zAnd asm) (zAnd (softF cs)))] = .unsat

/-- The loop of `CtrSet.checkSat`.  State: `asserted` is the list of
expressions currently asserted in the solver (outside the pushed frame),
`last` is `last_soft_idx` and `softs` is `soft_list`. -/
def checkSatLoop (S : SolverO) (pool : List ZX) :
    List Nat → List ZX → Nat → List ZX → PRes × Option Nat
  | [], _, _, _ => (.Sat, none)
  | c :: rest, asserted, last, softs =>
      let currList := (List.range' last (c - last)).map (poolGet pool)
      let softs2 := softs ++ [poolGet pool c]
      let asserted2 := asserted ++ [zAnd currList]
      match S.check (asserted2 ++ [ZX.notF (zAnd softs2)]) with
      | .sat => (.Unsat, some c)
      | .unknown => (.DontKnow, some c)
      | .unsat => checkSatLoop S pool rest asserted2 (c + 1) softs2

/-- `CtrSet.checkSat`. -/
def checkSat (S : SolverO) (cs : CtrSetM) : PRes × Option Nat :=
  checkSatLoop S cs.ctrPool cs.softIdx [] 0 []

/-- `CtrSet.analysis`: the three staged queries. -/
def analysis (S : SolverO) (cs : CtrSetM) : PRes × Extras :=
  match pathCondCheck S cs with
  | some idxs => (.Unreachable, { conflictList := some idxs })
  | none =>
      if checkValidity S cs then (.Valid, {})
      else
        match checkSat S cs with
        | (.Sat, _) => (.Valid, {})
        | (.Unreachable, i) => (.Unreachable, { conflict := i })
        | (.Unsat, i) => (.Unsat, { conflict := i })
        | (_, i) => (.DontKnow, { undecide := i })

/-! ## Reference formulations of the `checkSat` stage -/

/-- The queries `checkSat` issues, precomputed: for the `k`-th soft index
`c`, pairs `c` with the solver state at that step, namely the blocks
`And(ctrPool[last..c])` of pool entries strictly between consecutive soft
indices, plus the pushed `Not(And(soft_list))`. -/
def softQueriesGo (pool : List ZX) :
    List Nat → List ZX → Nat → List ZX → List (Nat × List ZX)
  | [], _, _, _ => []
  | c :: rest, asserted, last, softs =>
      let currList := (List.range' last (c - last)).map (poolGet pool)
      let softs2 := softs ++ [poolGet pool c]
      let asserted2 := asserted ++ [zAnd currList]
      (c, asserted2 ++ [ZX.notF (zAnd softs2)]) ::
        softQueriesGo pool rest asserted2 (c + 1) softs2

def softQueries (pool : List ZX) (softIdx : List Nat) : List (Nat × List ZX) :=
  softQueriesGo pool softIdx [] 0 []

/-- First-offender scan over a precomputed query list: the first query
not answered `unsat` decides the outcome and reports its index. -/
def scanQueries (S : SolverO) : List (Nat × List ZX) → PRes × Option Nat
  | [] => (.Sat, none)
  | (c, q) :: rest =>
      match S.check q with
      | .sat => (.Unsat, some c)
      | .unknown => (.DontKnow, some c)
      | .unsat => scanQueries S rest

/-- The `checkSat` stage exactly as claim C1 words it: a running solver
state holding all hard and path constraints plus every
previously-confirmed soft entry, checking `Not(And(softs so far))` for
each candidate. -/
def checkSatClaimGo (S : SolverO) (pool : List ZX) (base : List ZX) :
    List Nat → List ZX → List ZX → PRes × Option Nat
  | [], _, _ => (.Sat, none)
  | c :: rest, confirmed, softs =>
      let softs2 := softs ++ [poolGet pool c]
      match S.check ((base ++ confirmed) ++ [ZX.notF (zAnd softs2)]) with
      | .sat => (.Unsat, some c)
      | .unknown => (.DontKnow, some c)
      | .unsat => checkSatClaimGo S pool base rest (confirmed ++ [poolGet pool c]) softs2

def checkSatClaim (S : SolverO) (cs : CtrSetM) : PRes × Option Nat :=
  checkSatClaimGo S cs.ctrPool (assumptionsF cs ++ pathF cs) cs.softIdx [] []

/-! ## The JSON documents consumed by the back-end -/

/-- A JSON value as the Python code sees it after `json.load`.  Python
distinguishes ints and floats, hence the two numeric constructors. -/
inductive Doc where
  | num (n : ℤ)
  | float (q : ℚ)
  | bool (b : Bool)
  | str (s : String)
  | obj (fields : List (String × Doc))
  | arr (elems : List Doc)

/-- Field lookup in an object (Python `d[k]`, first binding wins). -/
def lookupF : List (String × Doc) → String → Option Doc
  | [], _ => none
  | (k2, v) :: rest, k => if k2 = k then some v else lookupF rest k

/-- `d[k]` as an option (`none` both for a missing key, which raises
`KeyError` in Python, and for indexing a non-object). -/
def Doc.get? (d : Doc) (k : String) : Option Doc :=
  match d with
  | .obj fs => lookupF fs k
  | _ => none

/-- Python `==` between a JSON value and an enum integer value. -/
def Doc.isNum (d : Doc) (k : ℤ) : Bool :=
  match d with
  | .num n => n = k
  | _ => false

/-- Python `==` between two scalar JSON values (the only comparisons the
source performs between two document values are on scalar tag fields). -/
def Doc.scalarEq : Doc → Doc → Bool
  | .num a, .num b => a = b
  | .float a, .float b => a = b
  | .str a, .str b => a = b
  | .bool a, .bool b => a = b
  | _, _ => false

theorem lookupF_sizeOf {k : String} {v : Doc} :
    ∀ (l : List (String × Doc)), lookupF l k = some v → sizeOf v < 1 + sizeOf l := by
  intro l h
  induction l with
  | nil => simp [lookupF] at h
  | cons p rest ih =>
    rw [lookupF] at h
    split at h
    · cases h
      cases p
      simp
      omega
    · have := ih h
      simp
      omega

theorem get_sizeOf {d : Doc} {k : String} {v : Doc} (h : d.get? k = some v) :
    sizeOf v < sizeOf d := by
  cases d <;> simp [Doc.get?] at h
  case obj fields =>
    have := lookupF_sizeOf fields h
    simp
    omega

theorem get2_sizeOf {d v w : Doc} {k k2 : String}
    (h1 : d.get? k = some v) (h2 : v.get? k2 = some w) : sizeOf w < sizeOf d :=
  lt_trans (get_sizeOf h2) (get_sizeOf h1)

theorem getArr_sizeOf {d : Doc} {k : String} {l : List Doc}
    (h : d.get? k = some (.arr l)) : sizeOf l < sizeOf d := by
  have := get_sizeOf h
  simp at this
  omega

theorem getPair_sizeOf {d a b : Doc} {k : String}
    (h : d.get? k = some (.arr [a, b])) : sizeOf a < sizeOf d ∧ sizeOf b < sizeOf d := by
  have := get_sizeOf h
  simp at this
  omega

/-- Errors of the decoder/encoder (Python exceptions raised while
constructing `Ctr` formulas, plus the `z3` errors triggered by using a
`None` where an expression is expected). -/
inductive EncErr where
  | keyErr (k : String)
  | typeErr (what : String)
  | comparisonMismatch
  | boolTypeErr
  | boolCmpMismatch
  | numTypeErr
  | shapeTypeErr
  | constValueErr
  | realInIntOp (op : String)
  | nonIntRange
  | notSupported
  | intCheckErr (what : String)
  | rankSliceNoEnd
  | noneUsed
  | reduceEmpty
  | rangeFormat
  | badPool
  | badIdx
  deriving DecidableEq, Repr

/-- Error monad for the encoder: `.error` is a raised Python exception. -/
abbrev EncM (α : Type) : Type := Except EncErr α

/-- The kind of value `Ctr.getRank` returns.  Its `Const` branch returns
the raw Python number held by the JSON document (`return
expShape["rank"]`, source line 630), not a z3 expression, and a raw
value propagates through the `Set` branch and through the Python `+` of
the `Concat` branch.  z3py's `is_int` is `False` of a raw Python number
(it tests int-*sorted ASTs*), while arithmetic and comparisons against
an AST coerce it via `IntVal`/`RealVal`.  `rawI`/`rawR` are the raw
Python int/float, `expr` a z3 expression. -/
inductive GR where
  | rawI (n : ℤ)
  | rawR (q : ℚ)
  | expr (z : ZX)
  deriving DecidableEq, Repr

/-- z3py's coercion of a raw Python number into the AST (`IntVal` /
`RealVal`); the identity on expressions.  Applied where the source
hands a possibly-raw rank to a z3 operation that coerces it. -/
def GR.toZ : GR → ZX
  | .rawI n => ZX.intVal n
  | .rawR q => ZX.realVal q
  | .expr z => z

/-- z3py's `is_int` applied to a possibly-raw rank: `False` of a raw
Python value, the sort test on an expression. -/
def GR.isIntE : GR → Bool
  | .expr z => z.isIntS
  | _ => false

/-! ## Shape encodings (the lambdas built by `Ctr.encodeExpShape`) -/

/-- `encodeExpShape` (Symbol): `Lambda([i], If(And(0 <= i, i < rank),
Select(shape, i), -1))` over the declared array `shape = Array(name)`. -/
def symShapeZ (name : String) (rank : ZX) : ZX :=
  ZX.lamF "i" (mkIte
    (zAnd [mkLe (ZX.intVal 0) (ZX.intVar "i"), mkLt (ZX.intVar "i") rank])
    (ZX.selF (ZX.arrVar name) (ZX.intVar "i"))
    (ZX.intVal (-1)))

/-- `_encodeExpShapeSlice`: `Lambda([i], If(And(0 <= i, i < end - start),
Select(dims, start + i), -1))`. -/
def sliceShapeZ (dims start endT : ZX) : ZX :=
  ZX.lamF "i" (mkIte
    (zAnd [mkLe (ZX.intVal 0) (ZX.intVar "i"),
           mkLt (ZX.intVar "i") (mkSub endT start)])
    (ZX.selF dims (mkAdd start (ZX.intVar "i")))
    (ZX.intVal (-1)))

/-- `_encodeExpShapeConcat`: left part below `rankLeft`, right part on
`[rankLeft, rankLeft + rankRight)`, `-1` elsewhere. -/
def concatShapeZ (left rankLeft right rankRight : ZX) : ZX :=
  ZX.lamF "i" (mkIte
    (zAnd [mkLe (ZX.intVal 0) (ZX.intVar "i"), mkLt (ZX.intVar "i") rankLeft])
    (ZX.selF left (ZX.intVar "i"))
    (mkIte
      (zAnd [mkLe rankLeft (ZX.intVar "i"),
             mkLt (ZX.intVar "i") (mkAdd rankLeft rankRight)])
      (ZX.selF right (mkSub (ZX.intVar "i") rankLeft))
      (ZX.intVal (-1))))

/-- `_encodeExpShapeBc`: the right-aligned broadcast lambda. -/
def bcShapeZ (left rankLeft right rankRight : ZX) : ZX :=
  ZX.lamF "i" (mkIte (mkGe rankLeft rankRight)
    (mkIte
      (zAnd [mkLe (ZX.intVal 0) (ZX.intVar "i"),
             mkLt (ZX.intVar "i") (mkSub rankLeft rankRight)])
      (ZX.selF left (ZX.intVar "i"))
      (mkIte
        (zAnd [mkLe (mkSub rankLeft rankRight) (ZX.intVar "i"),
               mkLt (ZX.intVar "i") rankLeft])
        (z3_max (ZX.selF left (ZX.intVar "i"))
          (ZX.selF right (mkSub (ZX.intVar "i") (mkSub rankLeft rankRight))))
        (ZX.intVal (-1))))
    (mkIte
      (zAnd [mkLe (ZX.intVal 0) (ZX.intVar "i"),
             mkLt (ZX.intVar "i") (mkSub rankRight rankLeft)])
      (ZX.selF right (ZX.intVar "i"))
      (mkIte
        (zAnd [mkLe (mkSub rankRight rankLeft) (ZX.intVar "i"),
               mkLt (ZX.intVar "i") rankRight])
        (z3_max (ZX.selF right (ZX.intVar "i"))
          (ZX.selF left (mkSub (ZX.intVar "i") (mkSub rankRight rankLeft))))
        (ZX.intVal (-1)))))

/-- `_encodeBc`: `Or` over the two rank orderings, each a bounded
`ForAll` over the aligned overlap (source lines 522-563). -/
def bcFormZ (left rankLeft right rankRight : ZX) : ZX :=
  zOr
    [zAnd [mkGe rankLeft rankRight,
       ZX.allF "i" (ZX.impF
         (zAnd [mkLe (mkSub rankLeft rankRight) (ZX.intVar "i"),
                mkLt (ZX.intVar "i") rankLeft])
         (zOr [mkEq (ZX.selF left (ZX.intVar "i"))
                 (ZX.selF right (mkSub (ZX.intVar "i") (mkSub rankLeft rankRight))),
               mkEq (ZX.selF left (ZX.intVar "i")) (ZX.intVal 1),
               mkEq (ZX.selF right (mkSub (ZX.intVar "i") (mkSub rankLeft rankRight)))
                 (ZX.intVal 1)]))],
     zAnd [mkLt rankLeft rankRight,
       ZX.allF "i" (ZX.impF
         (zAnd [mkLe (mkSub rankRight rankLeft) (ZX.intVar "i"),
                mkLt (ZX.intVar "i") rankRight])
         (zOr [mkEq (ZX.selF right (ZX.intVar "i"))
                 (ZX.selF left (mkSub (ZX.intVar "i") (mkSub rankRight rankLeft))),
               mkEq (ZX.selF right (ZX.intVar "i")) (ZX.intVal 1),
               mkEq (ZX.selF left (mkSub (ZX.intVar "i") (mkSub rankRight rankLeft)))
                 (ZX.intVal 1)]))]]

/-! ## The encoder (`Ctr.encode` and helpers), transliterated -/

mutual

/-- `Ctr.encode` (source lines 438-460).  An unknown `type` tag falls off
the end of the if-chain: Python returns `None`, modelled as `.ok none`. -/
def encodeCtr (d : Doc) : EncM (Option ZX) :=
  match hq : d.get? "type" with
  | none => .error (.keyErr "type")
  | some t =>
    if t.isNum 0 then
      match hq2 : d.get? "exp" with
      | none => .error (.keyErr "exp")
      | some e => encodeExpBool e
    else if t.isNum 1 then
      match encodeEqC d with
      | .ok z => .ok (some z)
      | .error e => .error e
    else if t.isNum 2 then encodeNeC d
    else if t.isNum 3 then
      match encodeAndC d with
      | .ok z => .ok (some z)
      | .error e => .error e
    else if t.isNum 4 then
      match encodeOrC d with
      | .ok z => .ok (some z)
      | .error e => .error e
    else if t.isNum 5 then
      match encodeNotC d with
      | .ok z => .ok (some z)
      | .error e => .error e
    else if t.isNum 6 then
      match encodeLtC d with
      | .ok z => .ok (some z)
      | .error e => .error e
    else if t.isNum 7 then
      match encodeLeC d with
      | .ok z => .ok (some z)
      | .error e => .error e
    else if t.isNum 8 then
      match encodeFaC d with
      | .ok z => .ok (some z)
      | .error e => .error e
    else if t.isNum 9 then
      match encodeBcC d with
      | .ok z => .ok (some z)
      | .error e => .error e
    else if t.isNum 10 then .ok (some (ZX.boolVal false))
    else .ok none
termination_by sizeOf d * 16 + 6
decreasing_by all_goals first
  | (have hdec9 :=get_sizeOf hq2; omega)
  | omega

/-- `Ctr._encodeEq`: `Num`-`Num` and `Shape`-`Shape` comparisons are
encoded; anything else raises "Comparison mismatch". -/
def encodeEqC (d : Doc) : EncM ZX :=
  match hL : d.get? "left", hR : d.get? "right" with
  | some l, some r =>
      match l.get? "expType", r.get? "expType" with
      | some lt, some rt =>
          if lt.isNum 1 && rt.isNum 1 then
            match encodeExpNum l, encodeExpNum r with
            | .ok a, .ok b => .ok (mkEq a b)
            | .error e, _ => .error e
            | _, .error e => .error e
          else if lt.isNum 0 && rt.isNum 0 then
            match encodeExpShape l, encodeExpShape r with
            | .ok a, .ok b => .ok (mkEq a b)
            | .error e, _ => .error e
            | _, .error e => .error e
          else .error .comparisonMismatch
      | _, _ => .error (.keyErr "expType")
  | _, _ => .error (.keyErr "left/right")
termination_by sizeOf d * 16 + 5
decreasing_by all_goals first
  | (have hdec9 :=get_sizeOf hL; omega)
  | (have hdec9 :=get_sizeOf hR; omega)
  | omega

/-- `Ctr._encodeNe`: like `_encodeEq` but the mismatch case has no
`else` branch in the source, so Python returns `None`. -/
def encodeNeC (d : Doc) : EncM (Option ZX) :=
  match hL : d.get? "left", hR : d.get? "right" with
  | some l, some r =>
      match l.get? "expType", r.get? "expType" with
      | some lt, some rt =>
          if lt.isNum 1 && rt.isNum 1 then
            match encodeExpNum l, encodeExpNum r with
            | .ok a, .ok b => .ok (some (mkNe a b))
            | .error e, _ => .error e
            | _, .error e => .error e
          else if lt.isNum 0 && rt.isNum 0 then
            match encodeExpShape l, encodeExpShape r with
            | .ok a, .ok b => .ok (some (mkNe a b))
            | .error e, _ => .error e
            | _, .error e => .error e
          else .ok none
      | _, _ => .error (.keyErr "expType")
  | _, _ => .error (.keyErr "left/right")
termination_by sizeOf d * 16 + 5
decreasing_by all_goals first
  | (have hdec9 :=get_sizeOf hL; omega)
  | (have hdec9 :=get_sizeOf hR; omega)
  | omega

/-- `Ctr._encodeAnd`: `And(encode(left), encode(right))`; a `None`
sub-result makes z3's `And` raise. -/
def encodeAndC (d : Doc) : EncM ZX :=
  match hL : d.get? "left", hR : d.get? "right" with
  | some l, some r =>
      match encodeCtr l, encodeCtr r with
      | .ok (some a), .ok (some b) => .ok (zAnd [a, b])
      | .error e, _ => .error e
      | _, .error e => .error e
      | _, _ => .error .noneUsed
  | _, _ => .error (.keyErr "left/right")
termination_by sizeOf d * 16 + 5
decreasing_by all_goals first
  | (have hdec9 :=get_sizeOf hL; omega)
  | (have hdec9 :=get_sizeOf hR; omega)
  | omega

/-- `Ctr._encodeOr`. -/
def encodeOrC (d : Doc) : EncM ZX :=
  match hL : d.get? "left", hR : d.get? "right" with
  | some l, some r =>
      match encodeCtr l, encodeCtr r with
      | .ok (some a), .ok (some b) => .ok (zOr [a, b])
      | .error e, _ => .error e
      | _, .error e => .error e
      | _, _ => .error .noneUsed
  | _, _ => .error (.keyErr "left/right")
termination_by sizeOf d * 16 + 5
decreasing_by all_goals first
  | (have hdec9 :=get_sizeOf hL; omega)
  | (have hdec9 :=get_sizeOf hR; omega)
  | omega

/-- `Ctr._encodeNot`. -/
def encodeNotC (d : Doc) : EncM ZX :=
  match hq : d.get? "constraint" with
  | none => .error (.keyErr "constraint")
  | some c =>
      match encodeCtr c with
      | .ok (some a) => .ok (ZX.notF a)
      | .ok none => .error .noneUsed
      | .error e => .error e
termination_by sizeOf d * 16 + 5
decreasing_by all_goals first
  | (have hdec9 :=get_sizeOf hq; omega)
  | omega

/-- `Ctr._encodeLt`. -/
def encodeLtC (d : Doc) : EncM ZX :=
  match hL : d.get? "left", hR : d.get? "right" with
  | some l, some r =>
      match encodeExpNum l, encodeExpNum r with
      | .ok a, .ok b => .ok (mkLt a b)
      | .error e, _ => .error e
      | _, .error e => .error e
  | _, _ => .error (.keyErr "left/right")
termination_by sizeOf d * 16 + 5
decreasing_by all_goals first
  | (have hdec9 :=get_sizeOf hL; omega)
  | (have hdec9 :=get_sizeOf hR; omega)
  | omega

/-- `Ctr._encodeLe`. -/
def encodeLeC (d : Doc) : EncM ZX :=
  match hL : d.get? "left", hR : d.get? "right" with
  | some l, some r =>
      match encodeExpNum l, encodeExpNum r with
      | .ok a, .ok b => .ok (mkLe a b)
      | .error e, _ => .error e
      | _, .error e => .error e
  | _, _ => .error (.keyErr "left/right")
termination_by sizeOf d * 16 + 5
decreasing_by all_goals first
  | (have hdec9 :=get_sizeOf hL; omega)
  | (have hdec9 :=get_sizeOf hR; omega)
  | omega

/-- `Ctr._encodeFa`: `ForAll([x], Implies(And(lb <= x, x <= ub), body))`;
both bounds must encode to z3 Ints. -/
def encodeFaC (d : Doc) : EncM ZX :=
  match hs : d.get? "symbol" with
  | none => .error (.keyErr "symbol")
  | some sym =>
    match sym.get? "name" with
    | some (.str x) =>
        match hr : d.get? "range" with
        | some (.arr [lbD, ubD]) =>
            match encodeExpNum lbD, encodeExpNum ubD with
            | .ok lb, .ok ub =>
                if lb.isIntS && ub.isIntS then
                  match hc : d.get? "constraint" with
                  | none => .error (.keyErr "constraint")
                  | some c =>
                      match encodeCtr c with
                      | .ok (some body) =>
                          .ok (ZX.allF x (ZX.impF
                            (zAnd [mkLe lb (ZX.intVar x), mkLe (ZX.intVar x) ub])
                            body))
                      | .ok none => .error .noneUsed
                      | .error e => .error e
                else .error .nonIntRange
            | .error e, _ => .error e
            | _, .error e => .error e
        | some _ => .error .rangeFormat
        | none => .error (.keyErr "range")
    | some _ => .error (.typeErr "symbol name")
    | none => .error (.keyErr "name")
termination_by sizeOf d * 16 + 5
decreasing_by all_goals first
  | (have hdec9 :=get_sizeOf hc; omega)
  | (have h1 := (getPair_sizeOf hr).1; omega)
  | (have h2 := (getPair_sizeOf hr).2; omega)
  | omega

/-- `Ctr._encodeBc`: delegate to `bcFormZ` over the encoded shapes and
their ranks, a possibly-raw rank coerced (`GR.toZ`) where z3py coerces
it inside the comparisons and subtractions; for two raw ranks the
source pre-evaluates the guards `rankLeft >= rankRight` /
`rankLeft < rankRight` in Python, a constant fold the model leaves as
the equivalent symbolic comparison. -/
def encodeBcC (d : Doc) : EncM ZX :=
  match hL : d.get? "left", hR : d.get? "right" with
  | some l, some r =>
      match encodeExpShape l, encodeExpShape r with
      | .ok left, .ok right =>
          match getRank l, getRank r with
          | .ok rankLeft, .ok rankRight =>
              .ok (bcFormZ left rankLeft.toZ right rankRight.toZ)
          | .error e, _ => .error e
          | _, .error e => .error e
      | .error e, _ => .error e
      | _, .error e => .error e
  | _, _ => .error (.keyErr "left/right")
termination_by sizeOf d * 16 + 5
decreasing_by all_goals first
  | (have hdec9 :=get_sizeOf hL; omega)
  | (have hdec9 :=get_sizeOf hR; omega)
  | omega

/-- `Ctr.encodeExp`.  Note the source reads the key `"expBool"` (not
`"expType"`) in its last branch, so a `Bool`-sorted expression raises
`KeyError` there; transliterated as is. -/
def encodeExp (d : Doc) : EncM ZX :=
  match d.get? "expType" with
  | none => .error (.keyErr "expType")
  | some t =>
    if t.isNum 1 then encodeExpNum d
    else if t.isNum 0 then encodeExpShape d
    else if t.isNum 3 then .error .notSupported
    else
      match d.get? "expBool" with
      | none => .error (.keyErr "expBool")
      | some b =>
          if b.isNum 2 then
            match encodeExpBool d with
            | .ok (some z) => .ok z
            | .ok none => .error .noneUsed
            | .error e => .error e
          else .error .noneUsed
termination_by sizeOf d * 16 + 4
decreasing_by all_goals omega

/-- `Ctr.encodeExpBool` (source lines 575-623).  An unknown `opType`
falls off the end: Python returns `None`. -/
def encodeExpBool (d : Doc) : EncM (Option ZX) :=
  match d.get? "expType" with
  | none => .error (.keyErr "expType")
  | some t =>
    if !(t.isNum 2) then .error .boolTypeErr
    else
      match d.get? "opType" with
      | none => .error (.keyErr "opType")
      | some op =>
        if op.isNum 0 then
          match d.get? "value" with
          | some (.bool b) => .ok (some (ZX.boolVal b))
          | some _ => .error (.typeErr "bool const")
          | none => .error (.keyErr "value")
        else if op.isNum 1 then
          match d.get? "symbol" with
          | none => .error (.keyErr "symbol")
          | some sym =>
              match sym.get? "name" with
              | some (.str s) => .ok (some (ZX.boolVar s))
              | some _ => .error (.typeErr "symbol name")
              | none => .error (.keyErr "name")
        else if op.isNum 2 then
          match hL : d.get? "left", hR : d.get? "right" with
          | some l, some r =>
              match l.get? "expType", r.get? "expType" with
              | some lt, some rt =>
                  if !(lt.scalarEq rt) then .error .boolCmpMismatch
                  else
                    match encodeExp l, encodeExp r with
                    | .ok a, .ok b => .ok (some (mkEq a b))
                    | .error e, _ => .error e
                    | _, .error e => .error e
              | _, _ => .error (.keyErr "expType")
          | _, _ => .error (.keyErr "left/right")
        else if op.isNum 3 then
          match hL : d.get? "left", hR : d.get? "right" with
          | some l, some r =>
              match l.get? "expType", r.get? "expType" with
              | some lt, some rt =>
                  if !(lt.scalarEq rt) then .error .boolCmpMismatch
                  else
                    match encodeExp l, encodeExp r with
                    | .ok a, .ok b => .ok (some (mkNe a b))
                    | .error e, _ => .error e
                    | _, .error e => .error e
              | _, _ => .error (.keyErr "expType")
          | _, _ => .error (.keyErr "left/right")
        else if op.isNum 4 then
          match hL : d.get? "left", hR : d.get? "right" with
          | some l, some r =>
              match l.get? "expType", r.get? "expType" with
              | some lt, some rt =>
                  if !(lt.isNum 1) || !(rt.isNum 1) then .error .boolCmpMismatch
                  else
                    match encodeExpNum l, encodeExpNum r with
                    | .ok a, .ok b => .ok (some (mkLt a b))
                    | .error e, _ => .error e
                    | _, .error e => .error e
              | _, _ => .error (.keyErr "expType")
          | _, _ => .error (.keyErr "left/right")
        else if op.isNum 5 then
          match hL : d.get? "left", hR : d.get? "right" with
          | some l, some r =>
              match l.get? "expType", r.get? "expType" with
              | some lt, some rt =>
                  if !(lt.isNum 1) || !(rt.isNum 1) then .error .boolCmpMismatch
                  else
                    match encodeExpNum l, encodeExpNum r with
                    | .ok a, .ok b => .ok (some (mkLe a b))
                    | .error e, _ => .error e
                    | _, .error e => .error e
              | _, _ => .error (.keyErr "expType")
          | _, _ => .error (.keyErr "left/right")
        else if op.isNum 6 then
          match hb : d.get? "baseBool" with
          | none => .error (.keyErr "baseBool")
          | some bd =>
              match encodeExpBool bd with
              | .ok (some a) => .ok (some (ZX.notF a))
              | .ok none => .error .noneUsed
              | .error e => .error e
        else if op.isNum 7 then
          match hL : d.get? "left", hR : d.get? "right" with
          | some l, some r =>
              match encodeExpBool l, encodeExpBool r with
              | .ok (some a), .ok (some b) => .ok (some (zAnd [a, b]))
              | .error e, _ => .error e
              | _, .error e => .error e
              | _, _ => .error .noneUsed
          | _, _ => .error (.keyErr "left/right")
        else if op.isNum 8 then
          match hL : d.get? "left", hR : d.get? "right" with
          | some l, some r =>
              match encodeExpBool l, encodeExpBool r with
              | .ok (some a), .ok (some b) => .ok (some (zOr [a, b]))
              | .error e, _ => .error e
              | _, .error e => .error e
              | _, _ => .error .noneUsed
          | _, _ => .error (.keyErr "left/right")
        else .ok none
termination_by sizeOf d * 16 + 3
decreasing_by all_goals first
  | (have hdec9 :=get_sizeOf hL; omega)
  | (have hdec9 :=get_sizeOf hR; omega)
  | (have hdec9 :=get_sizeOf hb; omega)
  | omega

/-- `Ctr.getRank` (source lines 625-655).  The `Const` branch returns
the raw Python value of the `"rank"` key (`return expShape["rank"]`,
line 630), not a z3 expression: `.rawI`/`.rawR` here.  Rawness
propagates through `Set` (a plain recursive call) and through `Concat`,
whose Python `+` adds two raw numbers in Python; a raw summed with an
expression is coerced by z3py (`GR.toZ`).  `Broadcast` goes through
`z3_max`, i.e. z3's `If`, which always builds an AST from its (coerced)
arguments; for two raw operands the source pre-evaluates the guard
`a >= b` in Python, a constant fold this model leaves as the equivalent
symbolic comparison.  In the `Slice` branch with a missing `"end"` key
the source evaluates
`self.getRank(self.encodeExpShape(expShape["baseShape"]))`, i.e. it
applies `getRank` to an already-encoded z3 array, which raises a type
error at run time (`.rankSliceNoEnd` here), after any error of the inner
`encodeExpShape` call. -/
def getRank (d : Doc) : EncM GR :=
  match d.get? "expType" with
  | none => .error (.keyErr "expType")
  | some t =>
    if !(t.isNum 0) then .error .shapeTypeErr
    else
      match d.get? "opType" with
      | none => .error (.keyErr "opType")
      | some op =>
        if op.isNum 0 then
          match d.get? "rank" with
          | some (.num n) => .ok (.rawI n)
          | some (.float q) => .ok (.rawR q)
          | some _ => .error (.typeErr "rank")
          | none => .error (.keyErr "rank")
        else if op.isNum 1 then
          match hs : d.get? "symbol" with
          | none => .error (.keyErr "symbol")
          | some sym =>
              match hr : sym.get? "rank" with
              | none => .error (.keyErr "rank")
              | some rd =>
                  match encodeExpNum rd with
                  | .ok rank =>
                      if rank.isIntS then .ok (.expr rank)
                      else .error (.intCheckErr "symbol rank")
                  | .error e => .error e
        else if op.isNum 2 then
          match hb : d.get? "baseShape" with
          | none => .error (.keyErr "baseShape")
          | some bd => getRank bd
        else if op.isNum 3 then
          match
            (match hst : d.get? "start" with
             | some sd => encodeExpNum sd
             | none => .ok (ZX.intVal 0) : EncM ZX)
          with
          | .error e => .error e
          | .ok start =>
              match he : d.get? "end" with
              | some ed =>
                  match encodeExpNum ed with
                  | .ok e2 => .ok (.expr (mkSub e2 start))
                  | .error e => .error e
              | none =>
                  match hb : d.get? "baseShape" with
                  | none => .error (.keyErr "baseShape")
                  | some bd =>
                      match encodeExpShape bd with
                      | .ok _ => .error .rankSliceNoEnd
                      | .error e => .error e
        else if op.isNum 4 then
          match hL : d.get? "left", hR : d.get? "right" with
          | some l, some r =>
              match getRank l, getRank r with
              | .ok (.rawI a), .ok (.rawI b) => .ok (.rawI (a + b))
              | .ok (.rawI a), .ok (.rawR q) => .ok (.rawR ((a : ℚ) + q))
              | .ok (.rawR p), .ok (.rawI b) => .ok (.rawR (p + (b : ℚ)))
              | .ok (.rawR p), .ok (.rawR q) => .ok (.rawR (p + q))
              | .ok a, .ok b => .ok (.expr (mkAdd a.toZ b.toZ))
              | .error e, _ => .error e
              | _, .error e => .error e
          | _, _ => .error (.keyErr "left/right")
        else if op.isNum 5 then
          match hL : d.get? "left", hR : d.get? "right" with
          | some l, some r =>
              match getRank l, getRank r with
              | .ok a, .ok b => .ok (.expr (z3_max a.toZ b.toZ))
              | .error e, _ => .error e
              | _, .error e => .error e
          | _, _ => .error (.keyErr "left/right")
        else .error .noneUsed
termination_by sizeOf d * 16 + 3
decreasing_by all_goals first
  | (have hdec9 :=get_sizeOf hb; omega)
  | (have hdec9 :=get_sizeOf hst; omega)
  | (have hdec9 :=get_sizeOf he; omega)
  | (have hdec9 :=get_sizeOf hL; omega)
  | (have hdec9 :=get_sizeOf hR; omega)
  | (have hdec9 :=get2_sizeOf hs hr; omega)
  | omega

/-- `Ctr.encodeExpNum` (source lines 657-697).  An unknown `opType`
falls off the end (`None`), which raises at the first use. -/
def encodeExpNum (d : Doc) : EncM ZX :=
  match d.get? "expType" with
  | none => .error (.keyErr "expType")
  | some t =>
    if !(t.isNum 1) then .error .numTypeErr
    else
      match d.get? "opType" with
      | none => .error (.keyErr "opType")
      | some op =>
        if op.isNum 0 then
          match d.get? "value" with
          | some (.num n) => .ok (ZX.intVal n)
          | some (.bool b) => .ok (ZX.intVal (if b then 1 else 0))
          | some (.float q) => .ok (ZX.realVal q)
          | some _ => .error .constValueErr
          | none => .error (.keyErr "value")
        else if op.isNum 1 then
          match d.get? "symbol" with
          | none => .error (.keyErr "symbol")
          | some sym =>
              match sym.get? "type", sym.get? "name" with
              | some ty, some (.str s) =>
                  if ty.isNum 0 then .ok (ZX.intVar s) else .ok (ZX.realVar s)
              | some _, some _ => .error (.typeErr "symbol name")
              | _, _ => .error (.keyErr "symbol fields")
        else if op.isNum 2 then encodeBop d
        else if op.isNum 3 then
          match hb : d.get? "baseShape", hi : d.get? "index" with
          | some bd, some idxd =>
              match encodeExpShape bd with
              | .error e => .error e
              | .ok base =>
                  match encodeExpNum idxd with
                  | .error e => .error e
                  | .ok idx =>
                      if idx.isIntS then .ok (ZX.selF base idx)
                      else .error (.intCheckErr "index")
          | _, _ => .error (.keyErr "baseShape/index")
        else if op.isNum 4 then
          match hv : d.get? "values" with
          | some (.arr l) =>
              match encodeNumList l with
              | .error e => .error e
              | .ok [] => .error .reduceEmpty
              | .ok (v :: vs) => .ok (vs.foldl z3_max v)
          | some _ => .error (.typeErr "values")
          | none => .error (.keyErr "values")
        else if op.isNum 5 then encodeNumel d
        else if op.isNum 6 then encodeUop d
        else if op.isNum 7 then
          match hv : d.get? "values" with
          | some (.arr l) =>
              match encodeNumList l with
              | .error e => .error e
              | .ok [] => .error .reduceEmpty
              | .ok (v :: vs) => .ok (vs.foldl z3_min v)
          | some _ => .error (.typeErr "values")
          | none => .error (.keyErr "values")
        else .error .noneUsed
termination_by sizeOf d * 16 + 3
decreasing_by all_goals first
  | (have hdec9 :=get_sizeOf hb; omega)
  | (have hdec9 :=get_sizeOf hi; omega)
  | (have h5 := getArr_sizeOf hv; omega)
  | omega

/-- `Ctr._encodeExpNumBop` (source lines 699-733): binary arithmetic;
`TrueDiv` lifts one Int operand to Real, `FloorDiv`/`Mod` require both
Ints and raise otherwise; all three divisions use the `z3_div`/`z3_mod`
zero-divisor guard. -/
def encodeBop (d : Doc) : EncM ZX :=
  match d.get? "bopType" with
  | none => .error (.keyErr "bopType")
  | some bt =>
    match encodeBopArgs d with
    | .error e => .error e
    | .ok (left, right) =>
        if bt.isNum 0 then .ok (mkAdd left right)
        else if bt.isNum 1 then .ok (mkSub left right)
        else if bt.isNum 2 then .ok (mkMul left right)
        else if bt.isNum 3 then
          if left.isIntS then .ok (z3_div (ZX.toRealF left) right)
          else if right.isIntS then .ok (z3_div left (ZX.toRealF right))
          else .ok (z3_div left right)
        else if bt.isNum 4 then
          if left.isRealS || right.isRealS then .error (.realInIntOp "FloorDiv")
          else .ok (z3_div left right)
        else if bt.isNum 5 then
          if left.isRealS || right.isRealS then .error (.realInIntOp "Mod")
          else .ok (z3_mod left right)
        else .error .noneUsed
termination_by sizeOf d * 16 + 2
decreasing_by all_goals omega

/-- Shared operand reading of `_encodeExpNumBop`: every branch starts
with `encodeExpNum(expNum["left"])` and `encodeExpNum(expNum["right"])`. -/
def encodeBopArgs (d : Doc) : EncM (ZX × ZX) :=
  match hL : d.get? "left", hR : d.get? "right" with
  | some l, some r =>
      match encodeExpNum l with
      | .error e => .error e
      | .ok a =>
          match encodeExpNum r with
          | .error e => .error e
          | .ok b => .ok (a, b)
  | _, _ => .error (.keyErr "left/right")
termination_by sizeOf d * 16 + 1
decreasing_by all_goals first
  | (have hdec9 :=get_sizeOf hL; omega)
  | (have hdec9 :=get_sizeOf hR; omega)
  | omega

/-- `Ctr._encodeExpNumUop` (source lines 753-768). -/
def encodeUop (d : Doc) : EncM ZX :=
  match d.get? "uopType" with
  | none => .error (.keyErr "uopType")
  | some ut =>
    match hb : d.get? "baseValue" with
    | none => .error (.keyErr "baseValue")
    | some bd =>
        match encodeExpNum bd with
        | .error e => .error e
        | .ok base =>
            if ut.isNum 0 then .ok (ZX.negF base)
            else if ut.isNum 1 then
              if !base.isRealS then .ok base else .ok (ZX.toIntF base)
            else if ut.isNum 2 then
              if base.isRealS then
                .ok (mkIte (mkEq (ZX.toIntF base) base) (ZX.toIntF base)
                  (mkAdd (ZX.toIntF base) (ZX.intVal 1)))
              else .ok base
            else if ut.isNum 3 then
              .ok (mkIte (mkLt base (ZX.intVal 0)) (ZX.negF base) base)
            else .error .noneUsed
termination_by sizeOf d * 16 + 2
decreasing_by all_goals first
  | (have hdec9 :=get_sizeOf hb; omega)
  | omega

/-- `Ctr._encodeExpNumNumel`: `prod(enc(shape), 0, getRank(shape) - 1)`.
The `- 1` falls on the possibly-raw rank: on a raw Python number it is
Python subtraction (folded here), on an expression z3's. -/
def encodeNumel (d : Doc) : EncM ZX :=
  match hs : d.get? "shape" with
  | none => .error (.keyErr "shape")
  | some sd =>
      match encodeExpShape sd with
      | .error e => .error e
      | .ok enc =>
          match getRank sd with
          | .error e => .error e
          | .ok (.rawI n) =>
              .ok (ZX.prodF enc (ZX.intVal 0) (ZX.intVal (n - 1)))
          | .ok (.rawR q) =>
              .ok (ZX.prodF enc (ZX.intVal 0) (ZX.realVal (q - 1)))
          | .ok (.expr rank) =>
              .ok (ZX.prodF enc (ZX.intVal 0) (mkSub rank (ZX.intVal 1)))
termination_by sizeOf d * 16 + 2
decreasing_by all_goals first
  | (have hdec9 :=get_sizeOf hs; omega)
  | omega

/-- `Ctr.encodeExpShape` (source lines 770-799). -/
def encodeExpShape (d : Doc) : EncM ZX :=
  match d.get? "expType" with
  | none => .error (.keyErr "expType")
  | some t =>
    if !(t.isNum 0) then .error .shapeTypeErr
    else
      match d.get? "opType" with
      | none => .error (.keyErr "opType")
      | some op =>
        if op.isNum 0 then
          match hv : d.get? "dims" with
          | some (.arr l) => storeDims (ZX.constArrF (ZX.intVal (-1))) 0 l
          | some _ => .error (.typeErr "dims")
          | none => .error (.keyErr "dims")
        else if op.isNum 1 then
          match hs : d.get? "symbol" with
          | none => .error (.keyErr "symbol")
          | some sym =>
              match sym.get? "name" with
              | some (.str name) =>
                  match hr : sym.get? "rank" with
                  | none => .error (.keyErr "rank")
                  | some rd =>
                      match encodeExpNum rd with
                      | .error e => .error e
                      | .ok rank =>
                          if rank.isIntS then .ok (symShapeZ name rank)
                          else .error (.intCheckErr "shape symbol rank")
              | some _ => .error (.typeErr "symbol name")
              | none => .error (.keyErr "name")
        else if op.isNum 2 then encodeShapeSet d
        else if op.isNum 3 then encodeShapeSlice d
        else if op.isNum 4 then encodeShapeConcat d
        else if op.isNum 5 then encodeShapeBc d
        else .error .noneUsed
termination_by sizeOf d * 16 + 3
decreasing_by all_goals first
  | (have hdec9 :=getArr_sizeOf hv; omega)
  | (have hdec9 :=get2_sizeOf hs hr; omega)
  | omega

/-- `Ctr._encodeExpShapeSet`: `Store(base, axis, dim)` with Int checks. -/
def encodeShapeSet (d : Doc) : EncM ZX :=
  match hb : d.get? "baseShape" with
  | none => .error (.keyErr "baseShape")
  | some bd =>
      match encodeExpShape bd with
      | .error e => .error e
      | .ok base =>
          match ha : d.get? "axis" with
          | none => .error (.keyErr "axis")
          | some ad =>
              match encodeExpNum ad with
              | .error e => .error e
              | .ok axis =>
                  if !axis.isIntS then .error (.intCheckErr "axis")
                  else
                    match hd2 : d.get? "dim" with
                    | none => .error (.keyErr "dim")
                    | some dd =>
                        match encodeExpNum dd with
                        | .error e => .error e
                        | .ok dim =>
                            if !dim.isIntS then .error (.intCheckErr "dim")
                            else .ok (ZX.storeF base axis dim)
termination_by sizeOf d * 16 + 2
decreasing_by all_goals first
  | (have hdec9 :=get_sizeOf hb; omega)
  | (have hdec9 :=get_sizeOf ha; omega)
  | (have hdec9 :=get_sizeOf hd2; omega)
  | omega

/-- `Ctr._encodeExpShapeSlice` (source lines 811-833): missing `start`
defaults to `IntVal(0)`, missing `end` to `getRank(baseShape)` (the
document-level call, unlike `getRank`'s own Slice case).  The defaulted
`end` then has to pass `is_int(end)`: a raw Python rank (a `Const`
base, or a `Set`/`Concat` chain over `Const`s) fails it and the source
raises `"a end index must be an int"`, so the default only works for
bases whose rank is an int-sorted expression. -/
def encodeShapeSlice (d : Doc) : EncM ZX :=
  match hb : d.get? "baseShape" with
  | none => .error (.keyErr "baseShape")
  | some bd =>
      match encodeExpShape bd with
      | .error e => .error e
      | .ok dims =>
          match
            (match hst : d.get? "start" with
             | some sd => encodeExpNum sd
             | none => .ok (ZX.intVal 0) : EncM ZX)
          with
          | .error e => .error e
          | .ok start =>
              if !start.isIntS then .error (.intCheckErr "slice start")
              else
                match
                  (match he : d.get? "end" with
                   | some ed =>
                       match encodeExpNum ed with
                       | .ok z => .ok (GR.expr z)
                       | .error e => .error e
                   | none => getRank bd : EncM GR)
                with
                | .error e => .error e
                | .ok endG =>
                    if ! endG.isIntE then .error (.intCheckErr "slice end")
                    else .ok (sliceShapeZ dims start endG.toZ)
termination_by sizeOf d * 16 + 2
decreasing_by all_goals first
  | (have hdec9 :=get_sizeOf hb; omega)
  | (have hdec9 :=get_sizeOf hst; omega)
  | (have hdec9 :=get_sizeOf he; omega)
  | omega

/-- `Ctr._encodeExpShapeConcat` (source lines 835-852).  A raw rank is
coerced by z3py inside the lambda's comparisons (`GR.toZ`); the Python
fold of `rankLeft + rankRight` on two raw ranks is left symbolic. -/
def encodeShapeConcat (d : Doc) : EncM ZX :=
  match hL : d.get? "left", hR : d.get? "right" with
  | some l, some r =>
      match encodeExpShape l with
      | .error e => .error e
      | .ok left =>
          match getRank l with
          | .error e => .error e
          | .ok rankLeft =>
              match encodeExpShape r with
              | .error e => .error e
              | .ok right =>
                  match getRank r with
                  | .error e => .error e
                  | .ok rankRight => .ok (concatShapeZ left rankLeft.toZ right rankRight.toZ)
  | _, _ => .error (.keyErr "left/right")
termination_by sizeOf d * 16 + 2
decreasing_by all_goals first
  | (have hdec9 :=get_sizeOf hL; omega)
  | (have hdec9 :=get_sizeOf hR; omega)
  | omega

/-- `Ctr._encodeExpShapeBc` (source lines 854-887).  A raw rank is
coerced by z3py inside the lambda (`GR.toZ`), as in `_encodeBc`. -/
def encodeShapeBc (d : Doc) : EncM ZX :=
  match hL : d.get? "left", hR : d.get? "right" with
  | some l, some r =>
      match encodeExpShape l with
      | .error e => .error e
      | .ok left =>
          match getRank l with
          | .error e => .error e
          | .ok rankLeft =>
              match encodeExpShape r with
              | .error e => .error e
              | .ok right =>
                  match getRank r with
                  | .error e => .error e
                  | .ok rankRight => .ok (bcShapeZ left rankLeft.toZ right rankRight.toZ)
  | _, _ => .error (.keyErr "left/right")
termination_by sizeOf d * 16 + 2
decreasing_by all_goals first
  | (have hdec9 :=get_sizeOf hL; omega)
  | (have hdec9 :=get_sizeOf hR; omega)
  | omega

/-- Encode each element of a `values` list (the lazy `map` of the
source's `Min`/`Max` branches, forced by `reduce`). -/
def encodeNumList (l : List Doc) : EncM (List ZX) :=
  match l with
  | [] => .ok []
  | x :: rest =>
      match encodeExpNum x with
      | .error e => .error e
      | .ok v =>
          match encodeNumList rest with
          | .error e => .error e
          | .ok vs => .ok (v :: vs)
termination_by sizeOf l * 16 + 7
decreasing_by all_goals first
  | omega
  | (simp; try omega)

/-- The `Const` shape loop: `shape = Store(shape, i, dims[i])` with the
per-dimension Int check. -/
def storeDims (shape : ZX) (i : ℕ) (ds : List Doc) : EncM ZX :=
  match ds with
  | [] => .ok shape
  | dd :: rest =>
      match encodeExpNum dd with
      | .error e => .error e
      | .ok dim =>
          if !dim.isIntS then .error (.intCheckErr "shape const dim")
          else storeDims (ZX.storeF shape (ZX.intVal i) dim) (i + 1) rest
termination_by sizeOf ds * 16 + 7
decreasing_by all_goals first
  | omega
  | (simp; try omega)

end

/-! ## Document-level pipeline: `CtrSet.__init__` and `Z3Encoder.analyze` -/

/-- Numeric entries of one index list (Python list elements). -/
def idxNats : List Doc → EncM (List Nat)
  | [] => .ok []
  | (.num n) :: rest =>
      match idxNats rest with
      | .ok l => .ok (n.toNat :: l)
      | .error e => .error e
  | _ :: _ => .error .badIdx

/-- Read one index list (`hardCtr` / `softCtr` / `pathCtr`). -/
def asIdxList (d : Option Doc) : EncM (List Nat) :=
  match d with
  | some (.arr l) => idxNats l
  | some _ => .error .badIdx
  | none => .error (.keyErr "ctr index list")

/-- `Ctr.__init__` for one pool entry: `self.formula = self.encode(json)`.
Any exception raised by `encode` propagates. -/
def mkCtrFormula (d : Doc) : EncM (Option ZX) := encodeCtr d

/-- The pool list comprehension `[Ctr(c) for c in jsonCtrSet["ctrPool"]]`.
A `None` formula (unknown tag) is surfaced as an error here; in the
source it would raise at its first use inside `analysis`. -/
def mkPool : List Doc → EncM (List ZX)
  | [] => .ok []
  | cd :: rest =>
      match mkCtrFormula cd with
      | .error e => .error e
      | .ok none => .error .noneUsed
      | .ok (some z) =>
          match mkPool rest with
          | .error e => .error e
          | .ok zs => .ok (z :: zs)

/-- `CtrSet.__init__`: encode every pool constraint and read the three
index lists. -/
def mkCtrSet (d : Doc) : EncM CtrSetM :=
  match d.get? "ctrPool" with
  | some (.arr l) =>
      match mkPool l with
      | .error e => .error e
      | .ok pool =>
          match asIdxList (d.get? "hardCtr") with
          | .error e => .error e
          | .ok hard =>
              match asIdxList (d.get? "softCtr") with
              | .error e => .error e
              | .ok soft =>
                  match asIdxList (d.get? "pathCtr") with
                  | .error e => .error e
                  | .ok path => .ok ⟨pool, hard, soft, path⟩
  | some _ => .error .badPool
  | none => .error (.keyErr "ctrPool")

/-- `Z3Encoder.analyze`, per path: construct the `CtrSet` and classify
it.  The construction happens lazily inside the `for` statement,
*outside* the `try`/`except TimeoutError`, so an encoder exception on
one path propagates out of `analyze` and aborts the whole run.
(Console output and the 5-second wall-clock timeout are outside this
model.) -/
def analyze (S : SolverO) : List Doc → Except EncErr (List PRes)
  | [] => .ok []
  | d :: rest =>
      match mkCtrSet d with
      | .error e => .error e
      | .ok cs =>
          match analyze S rest with
          | .error e => .error e
          | .ok rs => .ok ((analysis S cs).1 :: rs)

/-! ## Basic semantic lemmas -/

theorem Holds_zAnd (env : Env) (l : List ZX) :
    Holds env (zAnd l) ↔ ∀ f ∈ l, Holds env f := by
  induction l with
  | nil => simp [zAnd, Holds]
  | cons x rest ih =>
    simp only [zAnd, List.foldr] at *
    rw [Holds]
    simp [ih]

theorem Holds_zOr (env : Env) (l : List ZX) :
    Holds env (zOr l) ↔ ∃ f ∈ l, Holds env f := by
  induction l with
  | nil => simp [zOr, Holds]
  | cons x rest ih =>
    simp only [zOr, List.foldr] at *
    rw [Holds]
    simp [ih]

theorem SatL_singleton (f : ZX) : SatL [f] ↔ Satisfiable f := by
  constructor
  · rintro ⟨env, h⟩
    exact ⟨env, h f (by simp)⟩
  · rintro ⟨env, h⟩
    exact ⟨env, by simpa using h⟩

theorem SatL_nil : SatL [] := ⟨envZero, by simp⟩

theorem coerce2_ii {a b : ZX} (ha : a.sortOf = .int) (hb : b.sortOf = .int) :
    coerce2 a b = (a, b) := by
  simp [coerce2, ha, hb]

theorem coerce2_rr {a b : ZX} (ha : a.sortOf = .real) (hb : b.sortOf = .real) :
    coerce2 a b = (a, b) := by
  simp [coerce2, ha, hb]

theorem coerce2_ri {a b : ZX} (ha : a.sortOf = .real) (hb : b.sortOf = .int) :
    coerce2 a b = (a, ZX.toRealF b) := by
  simp [coerce2, ha, hb]

theorem coerce2_ir {a b : ZX} (ha : a.sortOf = .int) (hb : b.sortOf = .real) :
    coerce2 a b = (ZX.toRealF a, b) := by
  simp [coerce2, ha, hb]

/-! ## Concrete solver oracles used in the theorems below -/

/-- The always-unknown oracle (trivially sound). -/
def oracleU : SolverO := ⟨fun _ => .unknown, fun _ => []⟩

theorem oracleU_sound : SoundCheck oracleU := by
  intro l
  constructor <;> intro h <;> simp [oracleU] at h

open Classical in
/-- An ideal solver: answers by the actual satisfiability of the
asserted list.  Decisive and sound, but (like any such oracle)
noncomputable. -/
noncomputable def idealO : SolverO :=
  ⟨fun l => if SatL l then .sat else .unsat, fun l => l⟩

theorem idealO_decisive : DecisiveCheck idealO := by
  intro l
  by_cases h : SatL l
  · left
    simp [idealO, h]
  · right
    simp [idealO, h]

theorem idealO_sound : SoundCheck idealO := by
  intro l
  by_cases h : SatL l
  · refine ⟨fun _ => h, fun hc => ?_⟩
    simp [idealO, h] at hc
  · refine ⟨fun hc => ?_, fun _ => h⟩
    simp [idealO, h] at hc

/-! ## Facts about `checkSat` and `pathCondCheck` -/

theorem checkSatLoop_eq_scan (S : SolverO) (pool : List ZX) :
    ∀ (idxs : List Nat) (asserted : List ZX) (last : Nat) (softs : List ZX),
      checkSatLoop S pool idxs asserted last softs =
        scanQueries S (softQueriesGo pool idxs asserted last softs) := by
  intro idxs
  induction idxs with
  | nil => intro asserted last softs; rfl
  | cons c rest ih =>
    intro asserted last softs
    rw [checkSatLoop, softQueriesGo, scanQueries]
    cases S.check
      ((asserted ++ [zAnd ((List.range' last (c - last)).map (poolGet pool))]) ++
        [ZX.notF (zAnd (softs ++ [poolGet pool c]))]) <;> simp [ih]

theorem softQueriesGo_fst (pool : List ZX) :
    ∀ (idxs : List Nat) (asserted : List ZX) (last : Nat) (softs : List ZX),
      (softQueriesGo pool idxs asserted last softs).map Prod.fst = idxs := by
  intro idxs
  induction idxs with
  | nil => intro asserted last softs; rfl
  | cons c rest ih =>
    intro asserted last softs
    rw [softQueriesGo]
    simp [ih]

theorem firstMatch_get :
    ∀ (pool : List ZX) (c : ZX) (i : Nat), firstMatch pool c = some i → pool.get? i = some c := by
  intro pool
  induction pool with
  | nil => intro c i h; simp [firstMatch] at h
  | cons d rest ih =>
    intro c i h
    rw [firstMatch] at h
    split at h
    · cases h
      simp_all
    · rcases Option.map_eq_some'.mp h with ⟨j, hj, rfl⟩
      simpa using ih c j hj

/-! ## Concrete instances for claims C1 and C2 -/

/-- Constraint set of the C1 counterexample: `ctrPool = [a, a]` (two
copies of the boolean symbol `a`), `hard = [1]`, `soft = [0]`,
`path = []`: a hard constraint whose pool index is above the soft
candidate's. -/
def cs1 : CtrSetM := ⟨[ZX.boolVar "a", ZX.boolVar "a"], [1], [0], []⟩

/-- The query `checkSat` actually issues for the candidate of `cs1`. -/
def cxq1 : List ZX := [zAnd [], ZX.notF (zAnd [ZX.boolVar "a"])]

/-- The query the claimed procedure issues for that candidate. -/
def cxq2 : List ZX := [ZX.boolVar "a", ZX.notF (zAnd [ZX.boolVar "a"])]

/-- A solver answering `sat` on `cxq1` (model: `a := false`), `unsat` on
`cxq2` (contradictory), `unknown` elsewhere. -/
def oracle1 : SolverO :=
  ⟨fun l => if l = cxq1 then .sat else if l = cxq2 then .unsat else .unknown,
   fun _ => []⟩

theorem oracle1_sound : SoundCheck oracle1 := by
  intro l
  by_cases h1 : l = cxq1
  · subst h1
    refine ⟨fun _ => ⟨⟨fun _ => 0, fun _ => 0, fun _ => false, fun _ _ => 0⟩, ?_⟩,
      fun hc => by simp [oracle1] at hc⟩
    intro f hf
    simp only [cxq1, List.mem_cons, List.not_mem_nil, or_false] at hf
    rcases hf with rfl | rfl
    · simp [zAnd, Holds]
    · rw [Holds]
      rw [Holds_zAnd]
      simp
      rw [Holds]
      simp
  · by_cases h2 : l = cxq2
    · subst h2
      refine ⟨fun hc => by simp [oracle1, h1] at hc, fun _ => ?_⟩
      rintro ⟨env, hall⟩
      have ha := hall (ZX.boolVar "a") (by simp [cxq2])
      have hn := hall (ZX.notF (zAnd [ZX.boolVar "a"])) (by simp [cxq2])
      rw [Holds] at hn
      rw [Holds_zAnd] at hn
      simp at hn
      rw [Holds] at ha hn
      exact hn ha
    · constructor <;> intro hc <;> simp [oracle1, h1, h2] at hc

/-- Constraint set of the C2 counterexample: `ctrPool = [a, Not(a)]`,
`hard = [0]`, `path = [1]`. -/
def cs2 : CtrSetM := ⟨[ZX.boolVar "a", ZX.notF (ZX.boolVar "a")], [0], [], [1]⟩

/-- `And(hard + path)` of `cs2`. -/
def conj2 : ZX := zAnd [ZX.boolVar "a", ZX.notF (ZX.boolVar "a")]

/-- A solver answering `unsat` with the (minimal) core `[And(a, Not a)]`
on the reachability query of `cs2`, `unknown` elsewhere. -/
def oracle2 : SolverO :=
  ⟨fun l => if l = [conj2] then .unsat else .unknown,
   fun l => if l = [conj2] then [conj2] else []⟩

theorem oracle2_sound : SoundCheck oracle2 := by
  intro l
  by_cases h1 : l = [conj2]
  · subst h1
    refine ⟨fun hc => by simp [oracle2] at hc, fun _ => ?_⟩
    rw [SatL_singleton]
    rintro ⟨env, h⟩
    simp only [conj2] at h
    rw [Holds_zAnd] at h
    have ha := h (ZX.boolVar "a") (by simp)
    have hn := h (ZX.notF (ZX.boolVar "a")) (by simp)
    rw [Holds] at hn
    exact hn ha
  · constructor <;> intro hc <;> simp [oracle2, h1] at hc

/-! ## Claims C1 and C2 -/

/-- C1 (amended): for every constraint set, `checkSat` iterates the soft
index list in its recorded order and equals the first-offender scan over
the precomputed query list `softQueries`: at the `k`-th soft index `c`
the solver state consists of the conjunction blocks
`And(ctrPool[last..c])` of pool entries strictly between consecutive
soft indices (hard or path constraints above the last soft index are
never asserted, and previously confirmed soft entries are asserted only
inside the negated conjunction), plus the pushed `Not(And(soft list so
far))`; a `sat` answer classifies the path Invalid with the candidate's
pool index, an `unknown` answer Undecidable with that index, and if
every query answers `unsat` the path is classified Valid. -/
theorem claim_C1 (S : SolverO) (cs : CtrSetM) :
    checkSat S cs = scanQueries S (softQueries cs.ctrPool cs.softIdx) ∧
    (softQueries cs.ctrPool cs.softIdx).map Prod.fst = cs.softIdx := by
  constructor
  · exact checkSatLoop_eq_scan S cs.ctrPool cs.softIdx [] 0 []
  · exact softQueriesGo_fst cs.ctrPool cs.softIdx [] 0 []

/-- C1 counterexample: with the sound solver `oracle1` and constraint
set `cs1` (hard constraint `a` at pool index 1, soft candidate `a` at
pool index 0), the source's `checkSat` never asserts the hard
constraint and reports Invalid at index 0, while the procedure described
by the claim (state = hard and path constraints plus confirmed softs)
confirms the candidate and returns Valid. -/
theorem claim_C1_counterexample :
    SoundCheck oracle1 ∧
    checkSat oracle1 cs1 = (.Unsat, some 0) ∧
    checkSatClaim oracle1 cs1 = (.Sat, none) ∧
    (analysis oracle1 cs1).1 = .Unsat := by
  refine ⟨oracle1_sound, ?_, ?_, ?_⟩ <;> decide

/-- C2 (amended): when the solver reports the reachability conjunction
`And(hard + path)` unsatisfiable, the path is classified Unreachable and
the reported indices are those returned by matching the core formulas
structurally against `ctrPool`; since the single assumption passed to
the solver is the whole conjunction, every reported index points at a
pool entry that is structurally the entire conjunction (so the list is
empty unless the conjunction itself occurs in `ctrPool`). -/
theorem claim_C2 (S : SolverO) (cs : CtrSetM)
    (hcore : S.core [conjF cs] ⊆ [conjF cs])
    (hunsat : S.check [conjF cs] = .unsat) :
    (analysis S cs).1 = .Unreachable ∧
    (analysis S cs).2.conflictList =
      some (findIndiceOfCtrs cs.ctrPool (S.core [conjF cs])) ∧
    ∀ i ∈ findIndiceOfCtrs cs.ctrPool (S.core [conjF cs]),
      cs.ctrPool.get? i = some (conjF cs) := by
  have hpc : pathCondCheck S cs =
      some (findIndiceOfCtrs cs.ctrPool (S.core [conjF cs])) := by
    simp [pathCondCheck, hunsat]
  refine ⟨?_, ?_, ?_⟩
  · simp [analysis, hpc]
  · simp [analysis, hpc]
  · intro i hi
    simp only [findIndiceOfCtrs, List.mem_mergeSort] at hi
    rcases List.mem_filterMap.mp hi with ⟨c, hc, hfm⟩
    have hceq : c = conjF cs := by
      have := hcore hc
      simpa using this
    subst hceq
    exact firstMatch_get _ _ _ hfm

theorem conjF_cs2 : conjF cs2 = conj2 := by decide

theorem findIndice_cs2 :
    findIndiceOfCtrs cs2.ctrPool (oracle2.core [conjF cs2]) = [] := by
  rw [conjF_cs2]
  rw [show oracle2.core [conj2] = [conj2] from by decide]
  rw [findIndiceOfCtrs]
  rw [show List.filterMap (firstMatch cs2.ctrPool) [conj2] = [] from by decide]
  simp

/-- Witness for C2 (amended) at `oracle2` and `cs2`. -/
theorem claim_C2_witness :
    oracle2.core [conjF cs2] ⊆ [conjF cs2] ∧
    oracle2.check [conjF cs2] = .unsat ∧
    ((analysis oracle2 cs2).1 = .Unreachable ∧
     (analysis oracle2 cs2).2.conflictList =
       some (findIndiceOfCtrs cs2.ctrPool (oracle2.core [conjF cs2])) ∧
     ∀ i ∈ findIndiceOfCtrs cs2.ctrPool (oracle2.core [conjF cs2]),
       cs2.ctrPool.get? i = some (conjF cs2)) := by
  have hcore : oracle2.core [conjF cs2] ⊆ [conjF cs2] := by
    rw [conjF_cs2]
    rw [show oracle2.core [conj2] = [conj2] from by decide]
    exact List.Subset.refl _
  have hunsat : oracle2.check [conjF cs2] = .unsat := by
    rw [conjF_cs2]
    decide
  exact ⟨hcore, hunsat, claim_C2 oracle2 cs2 hcore hunsat⟩

/-- C2 counterexample: `oracle2` is sound, reports the (minimal) core
`[And(a, Not a)]` for the jointly-contradictory pool `[a, Not a]`
(`hard = [0]`, `path = [1]`, each entry satisfiable on its own), and the
path is classified Unreachable; yet the reported conflict index list is
empty, not the conflicting subset `{0, 1}` of `ctrPool`. -/
theorem claim_C2_counterexample :
    SoundCheck oracle2 ∧
    oracle2.core [conjF cs2] = [conjF cs2] ∧
    pathCondCheck oracle2 cs2 = some [] ∧
    (analysis oracle2 cs2).1 = .Unreachable ∧
    (analysis oracle2 cs2).2.conflictList = some [] ∧
    ¬ SatL [ZX.boolVar "a", ZX.notF (ZX.boolVar "a")] ∧
    Satisfiable (ZX.boolVar "a") ∧
    Satisfiable (ZX.notF (ZX.boolVar "a")) := by
  have hunsat : oracle2.check [conjF cs2] = .unsat := by
    rw [conjF_cs2]
    decide
  have hpc : pathCondCheck oracle2 cs2 = some [] := by
    rw [pathCondCheck, if_pos hunsat, findIndice_cs2]
  refine ⟨oracle2_sound, by rw [conjF_cs2]; decide, hpc,
    by simp [analysis, hpc], by simp [analysis, hpc], ?_, ?_, ?_⟩
  · rintro ⟨env, h⟩
    have ha := h (ZX.boolVar "a") (by simp)
    have hn := h (ZX.notF (ZX.boolVar "a")) (by simp)
    rw [Holds] at hn
    exact hn ha
  · exact ⟨⟨fun _ => 0, fun _ => 0, fun _ => true, fun _ _ => 0⟩, by rw [Holds]⟩
  · refine ⟨⟨fun _ => 0, fun _ => 0, fun _ => false, fun _ _ => 0⟩, ?_⟩
    rw [Holds]
    rw [Holds]
    simp

/-! ## Claim C3 -/

/-- The stage-2 validity formula
`Not(Implies(And(hard + path), And(soft)))`. -/
def notImpF (cs : CtrSetM) : ZX :=
  ZX.notF (ZX.impF (zAnd (assumptionsF cs ++ pathF cs)) (zAnd (softF cs)))

/-- C3: over a sound and decisive solver, (a) a reachable set with a
non-empty soft list whose validity formula
`Not(Implies(And(hard + path), And(soft)))` is unsatisfiable is
classified Valid; (b) a reachable set with an empty soft list is
classified Valid exactly when the conjunction `And(hard + path)` is
satisfiable. -/
theorem claim_C3 (S : SolverO) (hdec : DecisiveCheck S) (hsound : SoundCheck S) :
    (∀ cs : CtrSetM, softF cs ≠ [] → ¬ Satisfiable (notImpF cs) →
        pathCondCheck S cs = none → (analysis S cs).1 = .Valid) ∧
    (∀ cs : CtrSetM, softF cs = [] → pathCondCheck S cs = none →
        ((analysis S cs).1 = .Valid ↔ Satisfiable (conjF cs))) := by
  constructor
  · intro cs hne hnsat hpc
    have hv : S.check [notImpF cs] = .unsat := by
      rcases hdec [notImpF cs] with h | h
      · exact absurd ((SatL_singleton _).mp ((hsound _).1 h)) hnsat
      · exact h
    have hcv : checkValidity S cs = true := by
      simp only [checkValidity, if_neg hne]
      rw [show ZX.notF (ZX.impF (zAnd (assumptionsF cs ++ pathF cs))
        (zAnd (softF cs))) = notImpF cs from rfl]
      simp [hv]
    simp [analysis, hpc, hcv]
  · intro cs hsoft hpc
    have hne : S.check [conjF cs] ≠ .unsat := by
      intro hu
      simp [pathCondCheck, hu] at hpc
    have hs : S.check [conjF cs] = .sat := by
      rcases hdec [conjF cs] with h | h
      · exact h
      · exact absurd h hne
    have hsat : Satisfiable (conjF cs) := (SatL_singleton _).mp ((hsound _).1 hs)
    refine ⟨fun _ => hsat, fun _ => ?_⟩
    have hcv : checkValidity S cs = true := by
      simp only [checkValidity, if_pos hsoft]
      rw [show zAnd (assumptionsF cs ++ pathF cs) = conjF cs from rfl]
      simp [hs]
    simp [analysis, hpc, hcv]

/-- Witness instance for C3(a): one soft constraint `true`, no hard or
path constraints. -/
def cs3a : CtrSetM := ⟨[ZX.boolVal true], [], [0], []⟩

/-- Witness instance for C3(b): the empty constraint set. -/
def cs3b : CtrSetM := ⟨[], [], [], []⟩

theorem satL_zAnd_nil : SatL [zAnd []] := by
  refine ⟨envZero, ?_⟩
  intro f hf
  simp only [List.mem_singleton] at hf
  subst hf
  simp [zAnd, Holds]

/-- Witness for C3 at the ideal solver with `cs3a` and `cs3b`. -/
theorem claim_C3_witness :
    (softF cs3a ≠ [] ∧ ¬ Satisfiable (notImpF cs3a) ∧
      pathCondCheck idealO cs3a = none ∧ (analysis idealO cs3a).1 = .Valid) ∧
    (softF cs3b = [] ∧ pathCondCheck idealO cs3b = none ∧
      ((analysis idealO cs3b).1 = .Valid ↔ Satisfiable (conjF cs3b))) := by
  have hchk : idealO.check [zAnd []] = .sat := by
    simp [idealO, satL_zAnd_nil]
  have hpcA : pathCondCheck idealO cs3a = none := by
    rw [pathCondCheck]
    rw [show conjF cs3a = zAnd [] from rfl]
    simp [hchk]
  have hpcB : pathCondCheck idealO cs3b = none := by
    rw [pathCondCheck]
    rw [show conjF cs3b = zAnd [] from rfl]
    simp [hchk]
  have hnsat : ¬ Satisfiable (notImpF cs3a) := by
    rintro ⟨env, h⟩
    rw [show notImpF cs3a =
      ZX.notF (ZX.impF (zAnd []) (zAnd [ZX.boolVal true])) from rfl] at h
    rw [Holds] at h
    apply h
    rw [Holds]
    intro _
    rw [Holds_zAnd]
    intro f hf
    simp only [List.mem_singleton] at hf
    subst hf
    rw [Holds]
  have hne : softF cs3a ≠ [] := by simp [softF, cs3a, poolGet]
  refine ⟨⟨hne, hnsat, hpcA,
      (claim_C3 idealO idealO_decisive idealO_sound).1 cs3a hne hnsat hpcA⟩,
    ⟨rfl, hpcB,
      (claim_C3 idealO idealO_decisive idealO_sound).2 cs3b rfl hpcB⟩⟩

/-! ## Claim C10 -/

/-- C10: (a) encoding a constraint whose `type` tag is `Fail` yields the
boolean constant `false` (Python `False`, coerced by z3); (b) a `Fail`
entry referenced from the hard or path index lists makes the
reachability conjunction `And(hard + path)` unsatisfiable; (c) when the
`checkSat` loop reaches a `Fail` soft candidate with a satisfiable
solver state, a sound solver cannot confirm it as entailed: the loop
stops there, classifying Invalid or Undecidable at that pool index. -/
theorem claim_C10 :
    (∀ (d : Doc) (t : Doc), d.get? "type" = some t → t.isNum 10 = true →
        encodeCtr d = .ok (some (ZX.boolVal false))) ∧
    (∀ (cs : CtrSetM) (i : Nat), (i ∈ cs.hardIdx ∨ i ∈ cs.pathIdx) →
        poolGet cs.ctrPool i = ZX.boolVal false → ¬ Satisfiable (conjF cs)) ∧
    (∀ (S : SolverO) (pool : List ZX) (c : Nat) (rest : List Nat)
        (asserted : List ZX) (last : Nat) (softs : List ZX),
        SoundCheck S → poolGet pool c = ZX.boolVal false →
        SatL (asserted ++ [zAnd ((List.range' last (c - last)).map (poolGet pool))]) →
        checkSatLoop S pool (c :: rest) asserted last softs = (.Unsat, some c) ∨
        checkSatLoop S pool (c :: rest) asserted last softs = (.DontKnow, some c)) := by
  refine ⟨?_, ?_, ?_⟩
  · intro d t hget ht
    have : t = Doc.num 10 := by
      cases t <;> simp [Doc.isNum] at ht ⊢
      omega
    subst this
    rw [encodeCtr, hget]
    simp [Doc.isNum]
  · intro cs i hmem hfail
    rintro ⟨env, h⟩
    rw [show conjF cs = zAnd (assumptionsF cs ++ pathF cs) from rfl] at h
    rw [Holds_zAnd] at h
    have hin : ZX.boolVal false ∈ assumptionsF cs ++ pathF cs := by
      rcases hmem with hm | hm
      · exact List.mem_append_left _ (hfail ▸ List.mem_map_of_mem (poolGet cs.ctrPool) hm)
      · exact List.mem_append_right _ (hfail ▸ List.mem_map_of_mem (poolGet cs.ctrPool) hm)
    have := h _ hin
    rw [Holds] at this
    simp at this
  · intro S pool c rest asserted last softs hsound hfail hsat
    have hq : SatL ((asserted ++ [zAnd ((List.range' last (c - last)).map (poolGet pool))]) ++
        [ZX.notF (zAnd (softs ++ [poolGet pool c]))]) := by
      rcases hsat with ⟨env, hall⟩
      refine ⟨env, ?_⟩
      intro f hf
      rcases List.mem_append.mp hf with hf1 | hf1
      · exact hall f hf1
      · simp only [List.mem_singleton] at hf1
        subst hf1
        rw [Holds]
        rw [Holds_zAnd]
        intro hforall
        have := hforall (poolGet pool c) (by simp)
        rw [hfail] at this
        rw [Holds] at this
        simp at this
    have hne : S.check ((asserted ++ [zAnd ((List.range' last (c - last)).map (poolGet pool))]) ++
        [ZX.notF (zAnd (softs ++ [poolGet pool c]))]) ≠ .unsat := by
      intro hu
      exact (hsound _).2 hu hq
    rw [checkSatLoop]
    rcases hchk : S.check ((asserted ++ [zAnd ((List.range' last (c - last)).map (poolGet pool))]) ++
        [ZX.notF (zAnd (softs ++ [poolGet pool c]))]) with _ | _ | _
    · left
      simp [hchk]
    · exact absurd hchk hne
    · right
      simp [hchk]

/-- Witness pool for C10(b) and C10(c): a single `Fail` constraint used
as hard constraint (b) resp. soft candidate (c). -/
def cs10 : CtrSetM := ⟨[ZX.boolVal false], [0], [], []⟩

/-- Witness for C10 at concrete inputs. -/
theorem claim_C10_witness :
    ((Doc.obj [("type", Doc.num 10)]).get? "type" = some (Doc.num 10) ∧
      encodeCtr (Doc.obj [("type", Doc.num 10)]) = .ok (some (ZX.boolVal false))) ∧
    ((0 ∈ cs10.hardIdx ∨ 0 ∈ cs10.pathIdx) ∧ ¬ Satisfiable (conjF cs10)) ∧
    (SatL ([] ++ [zAnd ((List.range' 0 (0 - 0)).map (poolGet [ZX.boolVal false]))]) ∧
      (checkSatLoop oracleU [ZX.boolVal false] [0] [] 0 [] = (.Unsat, some 0) ∨
       checkSatLoop oracleU [ZX.boolVal false] [0] [] 0 [] = (.DontKnow, some 0))) := by
  have hget : (Doc.obj [("type", Doc.num 10)]).get? "type" = some (Doc.num 10) := rfl
  have hsat0 : SatL ([] ++ [zAnd ((List.range' 0 (0 - 0)).map (poolGet [ZX.boolVal false]))]) := by
    rw [show ([] ++ [zAnd ((List.range' 0 (0 - 0)).map (poolGet [ZX.boolVal false]))] : List ZX)
      = [zAnd []] from rfl]
    exact satL_zAnd_nil
  refine ⟨⟨hget, claim_C10.1 _ _ hget (by decide)⟩,
    ⟨Or.inl (by decide), claim_C10.2.1 cs10 0 (Or.inl (by decide)) rfl⟩,
    ⟨hsat0, claim_C10.2.2 oracleU [ZX.boolVal false] 0 [] [] 0 [] oracleU_sound rfl hsat0⟩⟩

/-! ## Concrete documents for claims C4 to C7 -/

/-- `ExpNum` integer constant document. -/
def numConstD (n : ℤ) : Doc :=
  Doc.obj [("expType", Doc.num 1), ("opType", Doc.num 0), ("value", Doc.num n)]

/-- `ExpNum` float constant document. -/
def floatConstD (q : ℚ) : Doc :=
  Doc.obj [("expType", Doc.num 1), ("opType", Doc.num 0), ("value", Doc.float q)]

/-- `ExpNum` binary-operation document. -/
def bopD (bt : ℤ) (l r : Doc) : Doc :=
  Doc.obj [("expType", Doc.num 1), ("opType", Doc.num 2), ("bopType", Doc.num bt),
    ("left", l), ("right", r)]

/-- `LessThan` constraint document. -/
def ltCtrD (l r : Doc) : Doc :=
  Doc.obj [("type", Doc.num 6), ("left", l), ("right", r)]

/-- `Fail` constraint document. -/
def failCtrD : Doc := Doc.obj [("type", Doc.num 10)]

/-- A path document whose single constraint contains a `FloorDiv` with a
real (float) operand: the encoder raises on it. -/
def badPathD : Doc :=
  Doc.obj [("ctrPool", Doc.arr [ltCtrD (bopD 4 (floatConstD 5) (numConstD 2)) (numConstD 1)]),
    ("hardCtr", Doc.arr []), ("softCtr", Doc.arr [Doc.num 0]), ("pathCtr", Doc.arr [])]

/-- A well-formed path document (single `Fail` constraint). -/
def goodPathD : Doc :=
  Doc.obj [("ctrPool", Doc.arr [failCtrD]),
    ("hardCtr", Doc.arr []), ("softCtr", Doc.arr [Doc.num 0]), ("pathCtr", Doc.arr [])]

theorem encNum_intConst (n : ℤ) : encodeExpNum (numConstD n) = .ok (ZX.intVal n) := by
  rw [encodeExpNum]
  simp [numConstD, Doc.get?, lookupF, Doc.isNum]

theorem encNum_floatConst (q : ℚ) : encodeExpNum (floatConstD q) = .ok (ZX.realVal q) := by
  rw [encodeExpNum]
  simp [floatConstD, Doc.get?, lookupF, Doc.isNum]

theorem encBopArgs_eval {l r : Doc} {a b : ZX} (bt : ℤ)
    (hl : encodeExpNum l = .ok a) (hr : encodeExpNum r = .ok b) :
    encodeBopArgs (bopD bt l r) = .ok (a, b) := by
  rw [encodeBopArgs]
  simp [bopD, Doc.get?, lookupF, hl, hr]

theorem encBop_floorDiv_real {l r : Doc} {a b : ZX} (hl : encodeExpNum l = .ok a)
    (hr : encodeExpNum r = .ok b) (ha : a.isRealS = true) :
    encodeBop (bopD 4 l r) = .error (.realInIntOp "FloorDiv") := by
  rw [encodeBop]
  rw [show (bopD 4 l r).get? "bopType" = some (Doc.num 4) from by
    simp [bopD, Doc.get?, lookupF]]
  rw [encBopArgs_eval 4 hl hr]
  simp [Doc.isNum, ha]

theorem encNum_bop (bt : ℤ) (l r : Doc) :
    encodeExpNum (bopD bt l r) = encodeBop (bopD bt l r) := by
  rw [encodeExpNum]
  simp [bopD, Doc.get?, lookupF, Doc.isNum]

theorem encCtr_lt {l r : Doc} {e : EncErr} (hl : encodeExpNum l = .error e) :
    encodeCtr (ltCtrD l r) = .error e := by
  rw [encodeCtr]
  simp only [ltCtrD, Doc.get?, lookupF]
  simp only [Doc.isNum, if_true, if_false]
  rw [encodeLtC]
  simp [Doc.get?, lookupF, hl, Doc.isNum, ltCtrD]

theorem encCtr_fail : encodeCtr failCtrD = .ok (some (ZX.boolVal false)) := by
  rw [encodeCtr]
  simp [failCtrD, Doc.get?, lookupF, Doc.isNum]

theorem encCtr_bad :
    encodeCtr (ltCtrD (bopD 4 (floatConstD 5) (numConstD 2)) (numConstD 1)) =
      .error (.realInIntOp "FloorDiv") := by
  apply encCtr_lt
  rw [encNum_bop]
  exact encBop_floorDiv_real (encNum_floatConst 5) (encNum_intConst 2) rfl

theorem mkPool_bad :
    mkPool [ltCtrD (bopD 4 (floatConstD 5) (numConstD 2)) (numConstD 1)] =
      .error (.realInIntOp "FloorDiv") := by
  have h : mkCtrFormula (ltCtrD (bopD 4 (floatConstD 5) (numConstD 2)) (numConstD 1)) =
      .error (.realInIntOp "FloorDiv") := encCtr_bad
  rw [mkPool]
  rw [h]

theorem mkCtrSet_pool_err {d : Doc} {l : List Doc} {e : EncErr}
    (hg : d.get? "ctrPool" = some (.arr l)) (hp : mkPool l = .error e) :
    mkCtrSet d = .error e := by
  simp only [mkCtrSet, hg, hp]

theorem mkCtrSet_eval {d : Doc} {l : List Doc} {pool : List ZX}
    {hard soft path : List Nat}
    (hg : d.get? "ctrPool" = some (.arr l)) (hp : mkPool l = .ok pool)
    (hh : asIdxList (d.get? "hardCtr") = .ok hard)
    (hs : asIdxList (d.get? "softCtr") = .ok soft)
    (hq : asIdxList (d.get? "pathCtr") = .ok path) :
    mkCtrSet d = .ok ⟨pool, hard, soft, path⟩ := by
  simp only [mkCtrSet, hg, hp, hh, hs, hq]

theorem mkCtrSet_bad : mkCtrSet badPathD = .error (.realInIntOp "FloorDiv") :=
  mkCtrSet_pool_err (by simp [badPathD, Doc.get?, lookupF]) mkPool_bad

theorem mkPool_good : mkPool [failCtrD] = .ok [ZX.boolVal false] := by
  have h : mkCtrFormula failCtrD = .ok (some (ZX.boolVal false)) := encCtr_fail
  rw [mkPool]
  rw [h]
  rw [mkPool]

theorem mkCtrSet_good : mkCtrSet goodPathD = .ok ⟨[ZX.boolVal false], [], [0], []⟩ :=
  mkCtrSet_eval (by simp [goodPathD, Doc.get?, lookupF]) mkPool_good
    (by simp [goodPathD, Doc.get?, lookupF, asIdxList, idxNats])
    (by simp [goodPathD, Doc.get?, lookupF, asIdxList, idxNats])
    (by simp [goodPathD, Doc.get?, lookupF, asIdxList, idxNats])

/-! ## Claim C4 -/

/-- C4 (amended): an encoder failure while constructing the constraint
set of one path aborts `analyze` as a whole: if every path before the
failing one constructs successfully, the run ends with the raised
encoder error, and neither the failing path nor any later path receives
a classification (only `TimeoutError` is caught per path in the
source). -/
theorem claim_C4 (S : SolverO) :
    ∀ (pre : List Doc) (d : Doc) (docs : List Doc) (e : EncErr),
      (∀ d2 ∈ pre, ∃ cs, mkCtrSet d2 = .ok cs) → mkCtrSet d = .error e →
      analyze S (pre ++ d :: docs) = .error e := by
  intro pre
  induction pre with
  | nil =>
    intro d docs e _ hd
    simp only [List.nil_append]
    rw [analyze]
    simp only [hd]
  | cons p rest ih =>
    intro d docs e hpre hd
    rcases hpre p (by simp) with ⟨cs, hcs⟩
    have hrest := ih d docs e (fun d2 h2 => hpre d2 (by simp [h2])) hd
    simp only [List.cons_append]
    rw [analyze]
    simp only [hcs, hrest]

/-- C4 counterexample: with the failing path first, `analyze` returns
only the raised error: the second (well-formed) path is not classified
and no `Undecidable` report is produced, refuting "aborts only the
classification of that path ... while all other paths are still
classified". -/
theorem claim_C4_counterexample :
    analyze oracleU [badPathD, goodPathD] = .error (.realInIntOp "FloorDiv") := by
  rw [analyze]
  simp only [mkCtrSet_bad]

/-- Witness for C4 (amended): one well-formed path followed by the
failing one. -/
theorem claim_C4_witness :
    (∀ d2 ∈ [goodPathD], ∃ cs, mkCtrSet d2 = .ok cs) ∧
    mkCtrSet badPathD = .error (.realInIntOp "FloorDiv") ∧
    analyze oracleU ([goodPathD] ++ badPathD :: []) = .error (.realInIntOp "FloorDiv") := by
  have hpre : ∀ d2 ∈ [goodPathD], ∃ cs, mkCtrSet d2 = .ok cs := by
    intro d2 h2
    simp only [List.mem_singleton] at h2
    subst h2
    exact ⟨_, mkCtrSet_good⟩
  exact ⟨hpre, mkCtrSet_bad,
    claim_C4 oracleU [goodPathD] badPathD [] _ hpre mkCtrSet_bad⟩

/-! ## Claim C5 -/

/-- A minimal `Shape`-typed expression document (only the `expType` tag
is read by the `Eq`/`Ne` sort dispatch). -/
def shapeTagD : Doc := Doc.obj [("expType", Doc.num 0)]

/-- `NotEqual` constraint mixing a `Num` and a `Shape` operand. -/
def neMixedD : Doc :=
  Doc.obj [("type", Doc.num 2), ("left", numConstD 2), ("right", shapeTagD)]

/-- `Equal` constraint mixing a `Num` and a `Shape` operand. -/
def eqMixedD : Doc :=
  Doc.obj [("type", Doc.num 1), ("left", numConstD 2), ("right", shapeTagD)]

/-- C5 (amended): (a) an unrecognised `type` tag value falls through the
whole if-chain of `Ctr.encode` and yields no formula (Python `None`)
without raising; (b) a `NotEqual` whose operands are not both `Num` nor
both `Shape` likewise yields no formula; (c) only `Equal` raises the
descriptive "Comparison mismatch" error on mixed operands. -/
theorem claim_C5 :
    (∀ (d : Doc) (n : ℤ), d.get? "type" = some (.num n) → n < 0 ∨ 10 < n →
        encodeCtr d = .ok none) ∧
    (∀ (d l r : Doc) (a b : ℤ), d.get? "type" = some (.num 2) →
        d.get? "left" = some l → d.get? "right" = some r →
        l.get? "expType" = some (.num a) → r.get? "expType" = some (.num b) →
        ¬(a = 1 ∧ b = 1) → ¬(a = 0 ∧ b = 0) →
        encodeCtr d = .ok none) ∧
    (∀ (d l r : Doc) (a b : ℤ), d.get? "type" = some (.num 1) →
        d.get? "left" = some l → d.get? "right" = some r →
        l.get? "expType" = some (.num a) → r.get? "expType" = some (.num b) →
        ¬(a = 1 ∧ b = 1) → ¬(a = 0 ∧ b = 0) →
        encodeCtr d = .error .comparisonMismatch) := by
  refine ⟨?_, ?_, ?_⟩
  · intro d n hget hrange
    rw [encodeCtr, hget]
    simp [Doc.isNum, show n ≠ 0 by omega, show n ≠ 1 by omega, show n ≠ 2 by omega,
      show n ≠ 3 by omega, show n ≠ 4 by omega, show n ≠ 5 by omega,
      show n ≠ 6 by omega, show n ≠ 7 by omega, show n ≠ 8 by omega,
      show n ≠ 9 by omega, show n ≠ 10 by omega]
  · intro d l r a b hget hL hR hlt hrt hnn hss
    rw [encodeCtr, hget]
    simp only [Doc.isNum]
    rw [encodeNeC, hL, hR]
    simp only [hlt, hrt, Doc.isNum]
    have h1 : ¬(decide (a = 1) && decide (b = 1)) = true := by
      simp
      intro h
      exact fun hb => hnn ⟨h, hb⟩
    have h0 : ¬(decide (a = 0) && decide (b = 0)) = true := by
      simp
      intro h
      exact fun hb => hss ⟨h, hb⟩
    simp [h1, h0]
  · intro d l r a b hget hL hR hlt hrt hnn hss
    rw [encodeCtr, hget]
    simp only [Doc.isNum]
    rw [encodeEqC, hL, hR]
    simp only [hlt, hrt, Doc.isNum]
    have h1 : ¬(decide (a = 1) && decide (b = 1)) = true := by
      simp
      intro h
      exact fun hb => hnn ⟨h, hb⟩
    have h0 : ¬(decide (a = 0) && decide (b = 0)) = true := by
      simp
      intro h
      exact fun hb => hss ⟨h, hb⟩
    simp [h1, h0]

/-- C5 counterexample: the unknown tag 99 and the mixed `NotEqual` both
produce a `Ctr` whose formula is `None` without any decode error,
refuting "constructing the IR fails with a descriptive decode error
rather than producing a value". -/
theorem claim_C5_counterexample :
    encodeCtr (Doc.obj [("type", Doc.num 99)]) = .ok none ∧
    encodeCtr neMixedD = .ok none := by
  constructor
  · rw [encodeCtr]
    simp [Doc.get?, lookupF, Doc.isNum]
  · rw [encodeCtr]
    rw [show neMixedD.get? "type" = some (Doc.num 2) from by
      simp [neMixedD, Doc.get?, lookupF]]
    simp only [Doc.isNum]
    rw [encodeNeC]
    rw [show neMixedD.get? "left" = some (numConstD 2) from by
      simp [neMixedD, Doc.get?, lookupF]]
    rw [show neMixedD.get? "right" = some shapeTagD from by
      simp [neMixedD, Doc.get?, lookupF]]
    simp [numConstD, shapeTagD, Doc.get?, lookupF, Doc.isNum]

/-- Witness for C5 at concrete documents. -/
theorem claim_C5_witness :
    ((Doc.obj [("type", Doc.num 99)]).get? "type" = some (Doc.num 99) ∧
      encodeCtr (Doc.obj [("type", Doc.num 99)]) = .ok none) ∧
    (neMixedD.get? "type" = some (Doc.num 2) ∧
      encodeCtr neMixedD = .ok none) ∧
    (eqMixedD.get? "type" = some (Doc.num 1) ∧
      encodeCtr eqMixedD = .error .comparisonMismatch) := by
  have h99 : (Doc.obj [("type", Doc.num 99)]).get? "type" = some (Doc.num 99) := by
    simp [Doc.get?, lookupF]
  have hne : neMixedD.get? "type" = some (Doc.num 2) := by
    simp [neMixedD, Doc.get?, lookupF]
  have heq : eqMixedD.get? "type" = some (Doc.num 1) := by
    simp [eqMixedD, Doc.get?, lookupF]
  have hneL : neMixedD.get? "left" = some (numConstD 2) := by
    simp [neMixedD, Doc.get?, lookupF]
  have hneR : neMixedD.get? "right" = some shapeTagD := by
    simp [neMixedD, Doc.get?, lookupF]
  have heqL : eqMixedD.get? "left" = some (numConstD 2) := by
    simp [eqMixedD, Doc.get?, lookupF]
  have heqR : eqMixedD.get? "right" = some shapeTagD := by
    simp [eqMixedD, Doc.get?, lookupF]
  have hnum : (numConstD 2).get? "expType" = some (Doc.num 1) := by
    simp [numConstD, Doc.get?, lookupF]
  have hshape : shapeTagD.get? "expType" = some (Doc.num 0) := by
    simp [shapeTagD, Doc.get?, lookupF]
  refine ⟨⟨h99, claim_C5.1 _ 99 h99 (by omega)⟩,
    ⟨hne, claim_C5.2.1 neMixedD _ _ 1 0 hne hneL hneR hnum hshape (by omega) (by omega)⟩,
    ⟨heq, claim_C5.2.2 eqMixedD _ _ 1 0 heq heqL heqR hnum hshape (by omega) (by omega)⟩⟩

/-! ## Claim C6 -/

/-- A constant shape document `[2]` of rank 1. -/
def shapeConstD1 : Doc :=
  Doc.obj [("expType", Doc.num 0), ("opType", Doc.num 0),
    ("dims", Doc.arr [numConstD 2]), ("rank", Doc.num 1)]

/-- `Slice(base = [2])` with both `start` and `end` absent. -/
def sliceNoEndD : Doc :=
  Doc.obj [("expType", Doc.num 0), ("opType", Doc.num 3), ("baseShape", shapeConstD1)]

/-- `Slice(base = [2], end = 1)` with `start` absent. -/
def sliceWithEndD : Doc :=
  Doc.obj [("expType", Doc.num 0), ("opType", Doc.num 3), ("baseShape", shapeConstD1),
    ("end", numConstD 1)]

/-- The encoded z3 array of the constant shape `[2]`. -/
def shapeConstZ1 : ZX :=
  ZX.storeF (ZX.constArrF (ZX.intVal (-1))) (ZX.intVal 0) (ZX.intVal 2)

theorem encShape_const1 : encodeExpShape shapeConstD1 = .ok shapeConstZ1 := by
  rw [encodeExpShape]
  rw [show shapeConstD1.get? "expType" = some (Doc.num 0) from by
    simp [shapeConstD1, Doc.get?, lookupF]]
  simp only [Doc.isNum]
  rw [show shapeConstD1.get? "opType" = some (Doc.num 0) from by
    simp [shapeConstD1, Doc.get?, lookupF]]
  simp only [Doc.isNum]
  rw [show shapeConstD1.get? "dims" = some (Doc.arr [numConstD 2]) from by
    simp [shapeConstD1, Doc.get?, lookupF]]
  simp only [decide_True, if_true, decide_False]
  rw [storeDims]
  rw [encNum_intConst]
  simp only [ZX.isIntS, ZX.sortOf, decide_True, Bool.not_true, Bool.false_eq_true, if_false]
  rw [storeDims]
  rfl

theorem getRank_const1 : getRank shapeConstD1 = .ok (.rawI 1) := by
  rw [getRank]
  rw [show shapeConstD1.get? "expType" = some (Doc.num 0) from by
    simp [shapeConstD1, Doc.get?, lookupF]]
  simp only [Doc.isNum]
  rw [show shapeConstD1.get? "opType" = some (Doc.num 0) from by
    simp [shapeConstD1, Doc.get?, lookupF]]
  simp only [Doc.isNum]
  rw [show shapeConstD1.get? "rank" = some (Doc.num 1) from by
    simp [shapeConstD1, Doc.get?, lookupF]]
  simp

theorem getRank_slice_noEnd {d bd : Doc} {z : ZX}
    (h0 : d.get? "expType" = some (.num 0)) (h1 : d.get? "opType" = some (.num 3))
    (hs : d.get? "start" = none) (he : d.get? "end" = none)
    (hb : d.get? "baseShape" = some bd) (henc : encodeExpShape bd = .ok z) :
    getRank d = .error .rankSliceNoEnd := by
  rw [getRank, h0]
  simp only [Doc.isNum]
  rw [h1]
  simp only [Doc.isNum]
  rw [hs, he, hb]
  simp [henc]

theorem encodeShapeSlice_noEnd {d bd : Doc} {dims : ZX} {g : GR}
    (hb : d.get? "baseShape" = some bd) (henc : encodeExpShape bd = .ok dims)
    (hs : d.get? "start" = none) (he : d.get? "end" = none)
    (hr : getRank bd = .ok g) (hri : g.isIntE = false) :
    encodeShapeSlice d = .error (.intCheckErr "slice end") := by
  rw [encodeShapeSlice, hb]
  simp only [henc]
  rw [hs]
  simp only [ZX.isIntS, ZX.sortOf, decide_True, Bool.not_true, Bool.false_eq_true, if_false]
  rw [he]
  simp [hr, hri]

theorem encodeShapeSlice_withEnd {d bd ed : Doc} {dims endZ : ZX}
    (hb : d.get? "baseShape" = some bd) (henc : encodeExpShape bd = .ok dims)
    (hs : d.get? "start" = none) (he : d.get? "end" = some ed)
    (hee : encodeExpNum ed = .ok endZ) (hi : endZ.isIntS = true) :
    encodeShapeSlice d = .ok (sliceShapeZ dims (ZX.intVal 0) endZ) := by
  rw [encodeShapeSlice, hb]
  simp only [henc]
  rw [hs]
  simp only [ZX.isIntS, ZX.sortOf, decide_True, Bool.not_true, Bool.false_eq_true, if_false]
  rw [he]
  simp [hee, GR.isIntE, hi, GR.toZ]

theorem encodeExpShape_slice {d : Doc} (h0 : d.get? "expType" = some (.num 0))
    (h1 : d.get? "opType" = some (.num 3)) :
    encodeExpShape d = encodeShapeSlice d := by
  rw [encodeExpShape, h0]
  simp only [Doc.isNum]
  rw [h1]
  simp [Doc.isNum]

/-- C6 (code bug): a `Slice` whose `end` field is absent fails instead
of defaulting to `rank_of(base)`.  `getRank` applies itself to the
already-encoded z3 array of the base, a run-time type error
(`.rankSliceNoEnd`); and `_encodeExpShapeSlice`, which does default the
missing `end` to `getRank(baseShape)`, then fails its `is_int(end)`
check, because for a `Const` base that default is the raw Python rank
value, which `is_int` rejects ("a end index must be an int",
`.intCheckErr "slice end"`).  With an explicit `end` both succeed: the
rank is `end - (start ?? 0)` and the encoded slice masks by
`end - start`. -/
theorem claim_C6 :
    getRank sliceNoEndD = .error .rankSliceNoEnd ∧
    getRank sliceWithEndD = .ok (.expr (ZX.subF (ZX.intVal 1) (ZX.intVal 0))) ∧
    encodeExpShape sliceNoEndD = .error (.intCheckErr "slice end") ∧
    encodeExpShape sliceWithEndD =
      .ok (sliceShapeZ shapeConstZ1 (ZX.intVal 0) (ZX.intVal 1)) := by
  have h0 : sliceNoEndD.get? "expType" = some (Doc.num 0) := by
    simp [sliceNoEndD, Doc.get?, lookupF]
  have h1 : sliceNoEndD.get? "opType" = some (Doc.num 3) := by
    simp [sliceNoEndD, Doc.get?, lookupF]
  have hs : sliceNoEndD.get? "start" = none := by
    simp [sliceNoEndD, Doc.get?, lookupF]
  have he : sliceNoEndD.get? "end" = none := by
    simp [sliceNoEndD, Doc.get?, lookupF]
  have hb : sliceNoEndD.get? "baseShape" = some shapeConstD1 := by
    simp [sliceNoEndD, Doc.get?, lookupF]
  have h0w : sliceWithEndD.get? "expType" = some (Doc.num 0) := by
    simp [sliceWithEndD, Doc.get?, lookupF]
  have h1w : sliceWithEndD.get? "opType" = some (Doc.num 3) := by
    simp [sliceWithEndD, Doc.get?, lookupF]
  have hsw : sliceWithEndD.get? "start" = none := by
    simp [sliceWithEndD, Doc.get?, lookupF]
  have hew : sliceWithEndD.get? "end" = some (numConstD 1) := by
    simp [sliceWithEndD, Doc.get?, lookupF]
  have hbw : sliceWithEndD.get? "baseShape" = some shapeConstD1 := by
    simp [sliceWithEndD, Doc.get?, lookupF]
  refine ⟨getRank_slice_noEnd h0 h1 hs he hb encShape_const1, ?_, ?_, ?_⟩
  · rw [getRank, h0w]
    simp only [Doc.isNum]
    rw [h1w]
    simp only [Doc.isNum]
    rw [hsw, hew]
    simp only [encNum_intConst]
    simp [ZX.isIntS, ZX.sortOf, mkSub, coerce2]
  · rw [encodeExpShape_slice h0 h1]
    exact encodeShapeSlice_noEnd hb encShape_const1 hs he getRank_const1 rfl
  · rw [encodeExpShape_slice h0w h1w]
    exact encodeShapeSlice_withEnd hbw encShape_const1 hsw hew
      (encNum_intConst 1) rfl

/-! ## Claim C7 -/

theorem encodeBopArgs_evalg {d l r : Doc} {lz rz : ZX}
    (hL : d.get? "left" = some l) (hR : d.get? "right" = some r)
    (hl : encodeExpNum l = .ok lz) (hr : encodeExpNum r = .ok rz) :
    encodeBopArgs d = .ok (lz, rz) := by
  rw [encodeBopArgs, hL, hR]
  simp [hl, hr]

theorem encodeExpNum_bop {d : Doc} (h0 : d.get? "expType" = some (.num 1))
    (h1 : d.get? "opType" = some (.num 2)) :
    encodeExpNum d = encodeBop d := by
  rw [encodeExpNum, h0]
  simp only [Doc.isNum]
  rw [h1]
  simp [Doc.isNum]

/-- C7: the three divide-class operators emit the zero-divisor guard
`If(divisor != 0, op, -1)` (for `TrueDiv` with the `Int`-to-`Real`
lifts, so the `-1` is the real constant), and when the divisor evaluates
to zero the guarded term evaluates to `-1`. -/
theorem claim_C7 :
    (∀ (d l r : Doc) (lz rz : ZX),
      d.get? "expType" = some (.num 1) → d.get? "opType" = some (.num 2) →
      d.get? "left" = some l → d.get? "right" = some r →
      encodeExpNum l = .ok lz → encodeExpNum r = .ok rz →
      lz.isIntS = true → rz.isIntS = true →
      (d.get? "bopType" = some (.num 4) →
        encodeExpNum d =
          .ok (ZX.iteF (ZX.neF rz (ZX.intVal 0)) (ZX.divF lz rz) (ZX.intVal (-1)))) ∧
      (d.get? "bopType" = some (.num 5) →
        encodeExpNum d =
          .ok (ZX.iteF (ZX.neF rz (ZX.intVal 0)) (ZX.modF lz rz) (ZX.intVal (-1)))) ∧
      (d.get? "bopType" = some (.num 3) →
        encodeExpNum d =
          .ok (ZX.iteF (ZX.neF rz (ZX.intVal 0))
            (ZX.divF (ZX.toRealF lz) (ZX.toRealF rz)) (ZX.toRealF (ZX.intVal (-1)))))) ∧
    (∀ (env : Env) (a b : ZX), evalT env b = some (.i 0) →
      evalT env (ZX.iteF (ZX.neF b (ZX.intVal 0)) a (ZX.intVal (-1))) = some (.i (-1))) ∧
    (∀ (env : Env) (a b : ZX), evalT env b = some (.i 0) →
      evalT env (ZX.iteF (ZX.neF b (ZX.intVal 0)) a (ZX.toRealF (ZX.intVal (-1)))) =
        some (.r (-1))) := by
  refine ⟨?_, ?_, ?_⟩
  · intro d l r lz rz h0 h1 hL hR hl hr hil hir
    have hsl : lz.sortOf = ZSort.int := by simpa [ZX.isIntS] using hil
    have hsr : rz.sortOf = ZSort.int := by simpa [ZX.isIntS] using hir
    have hrl : lz.isRealS = false := by simp [ZX.isRealS, hsl]
    have hrr : rz.isRealS = false := by simp [ZX.isRealS, hsr]
    have hargs : encodeBopArgs d = .ok (lz, rz) := encodeBopArgs_evalg hL hR hl hr
    have hnum : encodeExpNum d = encodeBop d := encodeExpNum_bop h0 h1
    refine ⟨?_, ?_, ?_⟩
    · intro hbt
      rw [hnum, encodeBop, hbt]
      simp only [hargs, Doc.isNum]
      simp [hrl, hrr, z3_div, mkIte, mkNe, mkDiv, coerce2, ZX.sortOf, hsl, hsr]
    · intro hbt
      rw [hnum, encodeBop, hbt]
      simp only [hargs, Doc.isNum]
      simp [hrl, hrr, z3_mod, mkIte, mkNe, mkMod, coerce2, ZX.sortOf, hsl, hsr]
    · intro hbt
      rw [hnum, encodeBop, hbt]
      simp only [hargs, Doc.isNum]
      simp [hil, z3_div, mkIte, mkNe, mkDiv, coerce2, ZX.sortOf, hsl, hsr]
  · intro env a b hb
    rw [evalT]
    have hn : ¬ Holds env (ZX.neF b (ZX.intVal 0)) := by
      rw [Holds, hb]
      rw [show evalT env (ZX.intVal 0) = some (.i 0) from by rw [evalT]]
      simp [valEq]
    rw [pIf_neg hn]
    rw [evalT]
  · intro env a b hb
    rw [evalT]
    have hn : ¬ Holds env (ZX.neF b (ZX.intVal 0)) := by
      rw [Holds, hb]
      rw [show evalT env (ZX.intVal 0) = some (.i 0) from by rw [evalT]]
      simp [valEq]
    rw [pIf_neg hn]
    rw [evalT]
    rw [show evalT env (ZX.intVal (-1)) = some (.i (-1)) from by rw [evalT]]
    norm_num

/-- Witness for C7 at a concrete `FloorDiv` document and the zero
divisor. -/
theorem claim_C7_witness :
    encodeExpNum (bopD 4 (numConstD 6) (numConstD 0)) =
      .ok (ZX.iteF (ZX.neF (ZX.intVal 0) (ZX.intVal 0))
        (ZX.divF (ZX.intVal 6) (ZX.intVal 0)) (ZX.intVal (-1))) ∧
    evalT envZero (ZX.iteF (ZX.neF (ZX.intVal 0) (ZX.intVal 0))
      (ZX.divF (ZX.intVal 6) (ZX.intVal 0)) (ZX.intVal (-1))) = some (.i (-1)) := by
  have h0 : (bopD 4 (numConstD 6) (numConstD 0)).get? "expType" = some (Doc.num 1) := by
    simp [bopD, Doc.get?, lookupF]
  have h1 : (bopD 4 (numConstD 6) (numConstD 0)).get? "opType" = some (Doc.num 2) := by
    simp [bopD, Doc.get?, lookupF]
  have hL : (bopD 4 (numConstD 6) (numConstD 0)).get? "left" = some (numConstD 6) := by
    simp [bopD, Doc.get?, lookupF]
  have hR : (bopD 4 (numConstD 6) (numConstD 0)).get? "right" = some (numConstD 0) := by
    simp [bopD, Doc.get?, lookupF]
  have hbt : (bopD 4 (numConstD 6) (numConstD 0)).get? "bopType" = some (Doc.num 4) := by
    simp [bopD, Doc.get?, lookupF]
  refine ⟨((claim_C7.1 _ _ _ _ _ h0 h1 hL hR (encNum_intConst 6) (encNum_intConst 0)
      rfl rfl).1 hbt), ?_⟩
  exact claim_C7.2.1 envZero _ (ZX.intVal 0) (by rw [evalT])

/-! ## Semantic helpers for the shape encodings -/

theorem evalT_intVal (env : Env) (n : ℤ) : evalT env (ZX.intVal n) = some (.i n) := by
  rw [evalT]

theorem evalT_intVar (env : Env) (s : String) :
    evalT env (ZX.intVar s) = some (.i (env.ints s)) := by
  rw [evalT]

theorem updI_self (env : Env) (x : String) (n : ℤ) : (env.updI x n).ints x = n := by
  simp [Env.updI]

theorem bind_numQ_int {env : Env} {t : ZX} {n : ℤ} (h : evalT env t = some (.i n)) :
    (evalT env t).bind Val.numQ = some ((n : ℚ)) := by
  rw [h]
  rfl

theorem Holds_leF_iff {env : Env} {a b : ZX} {x y : ℚ}
    (ha : (evalT env a).bind Val.numQ = some x)
    (hb : (evalT env b).bind Val.numQ = some y) :
    Holds env (ZX.leF a b) ↔ x ≤ y := by
  rw [Holds]
  constructor
  · rintro ⟨u, v, hu, hv, huv⟩
    rw [ha] at hu
    rw [hb] at hv
    cases hu
    cases hv
    exact huv
  · intro h
    exact ⟨x, y, ha, hb, h⟩

theorem Holds_ltF_iff {env : Env} {a b : ZX} {x y : ℚ}
    (ha : (evalT env a).bind Val.numQ = some x)
    (hb : (evalT env b).bind Val.numQ = some y) :
    Holds env (ZX.ltF a b) ↔ x < y := by
  rw [Holds]
  constructor
  · rintro ⟨u, v, hu, hv, huv⟩
    rw [ha] at hu
    rw [hb] at hv
    cases hu
    cases hv
    exact huv
  · intro h
    exact ⟨x, y, ha, hb, h⟩

theorem Holds_geF_iff {env : Env} {a b : ZX} {x y : ℚ}
    (ha : (evalT env a).bind Val.numQ = some x)
    (hb : (evalT env b).bind Val.numQ = some y) :
    Holds env (ZX.geF a b) ↔ y ≤ x := by
  rw [Holds]
  constructor
  · rintro ⟨u, v, hu, hv, huv⟩
    rw [ha] at hu
    rw [hb] at hv
    cases hu
    cases hv
    exact huv
  · intro h
    exact ⟨x, y, ha, hb, h⟩

theorem evalT_subF_int {env : Env} {a b : ZX} {m n : ℤ}
    (ha : evalT env a = some (.i m)) (hb : evalT env b = some (.i n)) :
    evalT env (ZX.subF a b) = some (.i (m - n)) := by
  rw [evalT, ha, hb]

theorem evalT_addF_int {env : Env} {a b : ZX} {m n : ℤ}
    (ha : evalT env a = some (.i m)) (hb : evalT env b = some (.i n)) :
    evalT env (ZX.addF a b) = some (.i (m + n)) := by
  rw [evalT, ha, hb]

theorem sortOf_int_of_isIntS {a : ZX} (h : a.isIntS = true) : a.sortOf = ZSort.int := by
  simpa [ZX.isIntS] using h

/-! ## Claim C8 -/

theorem symShapeZ_eq {name : String} {rank : ZX} (h : rank.sortOf = ZSort.int) :
    symShapeZ name rank =
      ZX.lamF "i" (ZX.iteF
        (zAnd [ZX.leF (ZX.intVal 0) (ZX.intVar "i"), ZX.ltF (ZX.intVar "i") rank])
        (ZX.selF (ZX.arrVar name) (ZX.intVar "i"))
        (ZX.intVal (-1))) := by
  simp [symShapeZ, mkIte, mkLe, mkLt, coerce2, ZX.sortOf, h]

theorem sliceShapeZ_eq {dims start endT : ZX} (hs : start.sortOf = ZSort.int)
    (he : endT.sortOf = ZSort.int) :
    sliceShapeZ dims start endT =
      ZX.lamF "i" (ZX.iteF
        (zAnd [ZX.leF (ZX.intVal 0) (ZX.intVar "i"),
               ZX.ltF (ZX.intVar "i") (ZX.subF endT start)])
        (ZX.selF dims (ZX.addF start (ZX.intVar "i")))
        (ZX.intVal (-1))) := by
  simp [sliceShapeZ, mkIte, mkLe, mkLt, mkSub, mkAdd, coerce2, ZX.sortOf, hs, he]

theorem concatShapeZ_eq {left rankLeft right rankRight : ZX}
    (hl : rankLeft.sortOf = ZSort.int) (hr : rankRight.sortOf = ZSort.int) :
    concatShapeZ left rankLeft right rankRight =
      ZX.lamF "i" (ZX.iteF
        (zAnd [ZX.leF (ZX.intVal 0) (ZX.intVar "i"), ZX.ltF (ZX.intVar "i") rankLeft])
        (ZX.selF left (ZX.intVar "i"))
        (ZX.iteF
          (zAnd [ZX.leF rankLeft (ZX.intVar "i"),
                 ZX.ltF (ZX.intVar "i") (ZX.addF rankLeft rankRight)])
          (ZX.selF right (ZX.subF (ZX.intVar "i") rankLeft))
          (ZX.intVal (-1)))) := by
  simp [concatShapeZ, mkIte, mkLe, mkLt, mkSub, mkAdd, coerce2, ZX.sortOf, hl, hr]

/-- C8: the encoded shapes of symbolic extent (`Symbol`, `Slice`,
`Concat`) denote arrays that yield `-1` at every index outside
`[0, rank)` of the respective rank (for `Concat`, under the natural
nonnegativity of the two ranks). -/
theorem claim_C8 :
    (∀ (env : Env) (name : String) (rank : ZX) (f : ℤ → ℤ) (k R : ℤ),
      rank.isIntS = true →
      evalT env (symShapeZ name rank) = some (.arr f) →
      evalT (env.updI "i" k) rank = some (.i R) →
      ¬(0 ≤ k ∧ k < R) → f k = -1) ∧
    (∀ (env : Env) (dims start endT : ZX) (f : ℤ → ℤ) (k S E : ℤ),
      start.isIntS = true → endT.isIntS = true →
      evalT env (sliceShapeZ dims start endT) = some (.arr f) →
      evalT (env.updI "i" k) start = some (.i S) →
      evalT (env.updI "i" k) endT = some (.i E) →
      ¬(0 ≤ k ∧ k < E - S) → f k = -1) ∧
    (∀ (env : Env) (left rankLeft right rankRight : ZX) (f : ℤ → ℤ) (k RL RR : ℤ),
      rankLeft.isIntS = true → rankRight.isIntS = true →
      evalT env (concatShapeZ left rankLeft right rankRight) = some (.arr f) →
      evalT (env.updI "i" k) rankLeft = some (.i RL) →
      evalT (env.updI "i" k) rankRight = some (.i RR) →
      0 ≤ RL → 0 ≤ RR →
      ¬(0 ≤ k ∧ k < RL + RR) → f k = -1) := by
  refine ⟨?_, ?_, ?_⟩
  · intro env name rank f k R hi hf hR hout
    rw [symShapeZ_eq (sortOf_int_of_isIntS hi)] at hf
    rw [evalT] at hf
    simp only [Option.some.injEq, Val.arr.injEq] at hf
    have hfk : f k = intOf (evalT (env.updI "i" k)
        (ZX.iteF
          (zAnd [ZX.leF (ZX.intVal 0) (ZX.intVar "i"), ZX.ltF (ZX.intVar "i") rank])
          (ZX.selF (ZX.arrVar name) (ZX.intVar "i"))
          (ZX.intVal (-1)))) := (congrFun hf k).symm
    rw [hfk]
    have hvi : evalT (env.updI "i" k) (ZX.intVar "i") = some (.i k) := by
      rw [evalT_intVar, updI_self]
    have hguard : ¬ Holds (env.updI "i" k)
        (zAnd [ZX.leF (ZX.intVal 0) (ZX.intVar "i"), ZX.ltF (ZX.intVar "i") rank]) := by
      rw [Holds_zAnd]
      intro hall
      have h1 := (Holds_leF_iff (bind_numQ_int (evalT_intVal _ 0)) (bind_numQ_int hvi)).mp
        (hall _ (by simp))
      have h2 := (Holds_ltF_iff (bind_numQ_int hvi) (bind_numQ_int hR)).mp
        (hall _ (by simp))
      apply hout
      constructor
      · exact_mod_cast h1
      · exact_mod_cast h2
    rw [evalT, pIf_neg hguard, evalT_intVal]
    rfl
  · intro env dims start endT f k S E hsi hei hf hS hE hout
    rw [sliceShapeZ_eq (sortOf_int_of_isIntS hsi) (sortOf_int_of_isIntS hei)] at hf
    rw [evalT] at hf
    simp only [Option.some.injEq, Val.arr.injEq] at hf
    have hfk : f k = intOf (evalT (env.updI "i" k)
        (ZX.iteF
          (zAnd [ZX.leF (ZX.intVal 0) (ZX.intVar "i"),
                 ZX.ltF (ZX.intVar "i") (ZX.subF endT start)])
          (ZX.selF dims (ZX.addF start (ZX.intVar "i")))
          (ZX.intVal (-1)))) := (congrFun hf k).symm
    rw [hfk]
    have hvi : evalT (env.updI "i" k) (ZX.intVar "i") = some (.i k) := by
      rw [evalT_intVar, updI_self]
    have hsub : evalT (env.updI "i" k) (ZX.subF endT start) = some (.i (E - S)) :=
      evalT_subF_int hE hS
    have hguard : ¬ Holds (env.updI "i" k)
        (zAnd [ZX.leF (ZX.intVal 0) (ZX.intVar "i"),
               ZX.ltF (ZX.intVar "i") (ZX.subF endT start)]) := by
      rw [Holds_zAnd]
      intro hall
      have h1 := (Holds_leF_iff (bind_numQ_int (evalT_intVal _ 0)) (bind_numQ_int hvi)).mp
        (hall _ (by simp))
      have h2 := (Holds_ltF_iff (bind_numQ_int hvi) (bind_numQ_int hsub)).mp
        (hall _ (by simp))
      apply hout
      constructor
      · exact_mod_cast h1
      · exact_mod_cast h2
    rw [evalT, pIf_neg hguard, evalT_intVal]
    rfl
  · intro env left rankLeft right rankRight f k RL RR hli hri hf hRL hRR hnl hnr hout
    rw [concatShapeZ_eq (sortOf_int_of_isIntS hli) (sortOf_int_of_isIntS hri)] at hf
    rw [evalT] at hf
    simp only [Option.some.injEq, Val.arr.injEq] at hf
    have hfk : f k = intOf (evalT (env.updI "i" k)
        (ZX.iteF
          (zAnd [ZX.leF (ZX.intVal 0) (ZX.intVar "i"), ZX.ltF (ZX.intVar "i") rankLeft])
          (ZX.selF left (ZX.intVar "i"))
          (ZX.iteF
            (zAnd [ZX.leF rankLeft (ZX.intVar "i"),
                   ZX.ltF (ZX.intVar "i") (ZX.addF rankLeft rankRight)])
            (ZX.selF right (ZX.subF (ZX.intVar "i") rankLeft))
            (ZX.intVal (-1))))) := (congrFun hf k).symm
    rw [hfk]
    have hvi : evalT (env.updI "i" k) (ZX.intVar "i") = some (.i k) := by
      rw [evalT_intVar, updI_self]
    have hadd : evalT (env.updI "i" k) (ZX.addF rankLeft rankRight) = some (.i (RL + RR)) :=
      evalT_addF_int hRL hRR
    have hg1 : ¬ Holds (env.updI "i" k)
        (zAnd [ZX.leF (ZX.intVal 0) (ZX.intVar "i"), ZX.ltF (ZX.intVar "i") rankLeft]) := by
      rw [Holds_zAnd]
      intro hall
      have h1 := (Holds_leF_iff (bind_numQ_int (evalT_intVal _ 0)) (bind_numQ_int hvi)).mp
        (hall _ (by simp))
      have h2 := (Holds_ltF_iff (bind_numQ_int hvi) (bind_numQ_int hRL)).mp
        (hall _ (by simp))
      apply hout
      have h1i : (0 : ℤ) ≤ k := by exact_mod_cast h1
      have h2i : k < RL := by exact_mod_cast h2
      exact ⟨h1i, by omega⟩
    have hg2 : ¬ Holds (env.updI "i" k)
        (zAnd [ZX.leF rankLeft (ZX.intVar "i"),
               ZX.ltF (ZX.intVar "i") (ZX.addF rankLeft rankRight)]) := by
      rw [Holds_zAnd]
      intro hall
      have h1 := (Holds_leF_iff (bind_numQ_int hRL) (bind_numQ_int hvi)).mp
        (hall _ (by simp))
      have h2 := (Holds_ltF_iff (bind_numQ_int hvi) (bind_numQ_int hadd)).mp
        (hall _ (by simp))
      apply hout
      have h1i : RL ≤ k := by exact_mod_cast h1
      have h2i : k < RL + RR := by exact_mod_cast h2
      exact ⟨by omega, h2i⟩
    rw [evalT, pIf_neg hg1, evalT, pIf_neg hg2, evalT_intVal]
    rfl

/-- Witness for C8 at concrete shapes, ranks and indices. -/
theorem claim_C8_witness :
    ((ZX.intVal 1).isIntS = true ∧
      evalT envZero (symShapeZ "X" (ZX.intVal 1)) =
        some (.arr (fun n => intOf (evalT (envZero.updI "i" n)
          (ZX.iteF
            (zAnd [ZX.leF (ZX.intVal 0) (ZX.intVar "i"),
                   ZX.ltF (ZX.intVar "i") (ZX.intVal 1)])
            (ZX.selF (ZX.arrVar "X") (ZX.intVar "i"))
            (ZX.intVal (-1)))))) ∧
      evalT (envZero.updI "i" 5) (ZX.intVal 1) = some (.i 1) ∧
      ¬((0 : ℤ) ≤ 5 ∧ (5 : ℤ) < 1) ∧
      (fun n => intOf (evalT (envZero.updI "i" n)
          (ZX.iteF
            (zAnd [ZX.leF (ZX.intVal 0) (ZX.intVar "i"),
                   ZX.ltF (ZX.intVar "i") (ZX.intVal 1)])
            (ZX.selF (ZX.arrVar "X") (ZX.intVar "i"))
            (ZX.intVal (-1))))) 5 = -1) := by
  have hsym : evalT envZero (symShapeZ "X" (ZX.intVal 1)) =
      some (.arr (fun n => intOf (evalT (envZero.updI "i" n)
        (ZX.iteF
          (zAnd [ZX.leF (ZX.intVal 0) (ZX.intVar "i"),
                 ZX.ltF (ZX.intVar "i") (ZX.intVal 1)])
          (ZX.selF (ZX.arrVar "X") (ZX.intVar "i"))
          (ZX.intVal (-1)))))) := by
    rw [symShapeZ_eq (by rfl)]
    rw [evalT]
  refine ⟨rfl, hsym, evalT_intVal _ 1, by omega, ?_⟩
  exact claim_C8.1 envZero "X" (ZX.intVal 1) _ 5 1 rfl hsym (evalT_intVal _ 1) (by omega)

/-! ## Claim C9 -/

theorem evalT_selF_arr {env : Env} {t i : ZX} {f : ℤ → ℤ} {n : ℤ}
    (ht : evalT env t = some (.arr f)) (hi : evalT env i = some (.i n)) :
    evalT env (ZX.selF t i) = some (.i (f n)) := by
  rw [evalT, ht, hi]

theorem Holds_eqF_ii {env : Env} {a b : ZX} {m n : ℤ}
    (ha : evalT env a = some (.i m)) (hb : evalT env b = some (.i n)) :
    Holds env (ZX.eqF a b) ↔ m = n := by
  rw [Holds, ha, hb]
  simp [valEq]

/-- The bounded `ForAll` part of `_encodeBc`, with the first shape and
rank aligned left. -/
def bcFa (a ra b rb : ZX) : ZX :=
  ZX.allF "i" (ZX.impF
    (zAnd [ZX.leF (ZX.subF ra rb) (ZX.intVar "i"), ZX.ltF (ZX.intVar "i") ra])
    (zOr [ZX.eqF (ZX.selF a (ZX.intVar "i"))
            (ZX.selF b (ZX.subF (ZX.intVar "i") (ZX.subF ra rb))),
          ZX.eqF (ZX.selF a (ZX.intVar "i")) (ZX.intVal 1),
          ZX.eqF (ZX.selF b (ZX.subF (ZX.intVar "i") (ZX.subF ra rb))) (ZX.intVal 1)]))

/-- `_encodeBc` output with the z3py coercions resolved (both rank terms
Int-sorted, which the encoder's inputs always are). -/
def bcRaw (l rl r rr : ZX) : ZX :=
  zOr [zAnd [ZX.geF rl rr, bcFa l rl r rr], zAnd [ZX.ltF rl rr, bcFa r rr l rl]]

theorem bcFormZ_eq {l rl r rr : ZX} (hl : rl.sortOf = ZSort.int)
    (hr : rr.sortOf = ZSort.int) :
    bcFormZ l rl r rr = bcRaw l rl r rr := by
  simp [bcFormZ, bcRaw, bcFa, mkGe, mkLt, mkLe, mkEq, mkSub, coerce2, ZX.sortOf, hl, hr]

theorem Holds_bcRaw (env : Env) (l rl r rr : ZX) :
    Holds env (bcRaw l rl r rr) ↔
      (Holds env (ZX.geF rl rr) ∧ Holds env (bcFa l rl r rr)) ∨
      (Holds env (ZX.ltF rl rr) ∧ Holds env (bcFa r rr l rl)) := by
  rw [bcRaw, Holds_zOr]
  simp only [List.mem_cons, List.mem_singleton, List.not_mem_nil]
  constructor
  · rintro ⟨f, hf | hf | hf, hh⟩
    · subst hf
      rw [Holds_zAnd] at hh
      exact Or.inl ⟨hh _ (by simp), hh _ (by simp)⟩
    · subst hf
      rw [Holds_zAnd] at hh
      exact Or.inr ⟨hh _ (by simp), hh _ (by simp)⟩
    · cases hf
  · rintro (⟨h1, h2⟩ | ⟨h1, h2⟩)
    · refine ⟨_, Or.inl rfl, ?_⟩
      rw [Holds_zAnd]
      intro f hf
      simp only [List.mem_cons, List.not_mem_nil, or_false] at hf
      rcases hf with rfl | rfl
      · exact h1
      · exact h2
    · refine ⟨_, Or.inr (Or.inl rfl), ?_⟩
      rw [Holds_zAnd]
      intro f hf
      simp only [List.mem_cons, List.not_mem_nil, or_false] at hf
      rcases hf with rfl | rfl
      · exact h1
      · exact h2

theorem bcFa_swap {env : Env} {l rl r rr : ZX} {fl fr : ℤ → ℤ} {X : ℤ}
    (hX : evalT env rl = some (.i X)) (hY : evalT env rr = some (.i X))
    (hfl : evalT env l = some (.arr fl)) (hfr : evalT env r = some (.arr fr))
    (hIl : ∀ n, evalT (env.updI "i" n) rl = evalT env rl)
    (hIr : ∀ n, evalT (env.updI "i" n) rr = evalT env rr)
    (hJl : ∀ n, evalT (env.updI "i" n) l = evalT env l)
    (hJr : ∀ n, evalT (env.updI "i" n) r = evalT env r) :
    Holds env (bcFa l rl r rr) ↔ Holds env (bcFa r rr l rl) := by
  rw [bcFa, bcFa, Holds, Holds]
  apply forall_congr'
  intro n
  rw [Holds, Holds]
  have hvi : evalT (env.updI "i" n) (ZX.intVar "i") = some (.i n) := by
    rw [evalT_intVar, updI_self]
  have hXn : evalT (env.updI "i" n) rl = some (.i X) := (hIl n).trans hX
  have hYn : evalT (env.updI "i" n) rr = some (.i X) := (hIr n).trans hY
  have hfln : evalT (env.updI "i" n) l = some (.arr fl) := (hJl n).trans hfl
  have hfrn : evalT (env.updI "i" n) r = some (.arr fr) := (hJr n).trans hfr
  have hsubP : evalT (env.updI "i" n) (ZX.subF rl rr) = some (.i (X - X)) :=
    evalT_subF_int hXn hYn
  have hsubQ : evalT (env.updI "i" n) (ZX.subF rr rl) = some (.i (X - X)) :=
    evalT_subF_int hYn hXn
  have hidxP : evalT (env.updI "i" n) (ZX.subF (ZX.intVar "i") (ZX.subF rl rr)) =
      some (.i n) := by
    have := evalT_subF_int hvi hsubP
    simpa using this
  have hidxQ : evalT (env.updI "i" n) (ZX.subF (ZX.intVar "i") (ZX.subF rr rl)) =
      some (.i n) := by
    have := evalT_subF_int hvi hsubQ
    simpa using this
  have hguardP : Holds (env.updI "i" n)
      (zAnd [ZX.leF (ZX.subF rl rr) (ZX.intVar "i"), ZX.ltF (ZX.intVar "i") rl]) ↔
      ((X - X : ℚ) ≤ (n : ℚ) ∧ (n : ℚ) < (X : ℚ)) := by
    rw [Holds_zAnd]
    constructor
    · intro hall
      exact ⟨by
        have := (Holds_leF_iff (bind_numQ_int hsubP) (bind_numQ_int hvi)).mp
          (hall _ (by simp))
        exact_mod_cast this,
        (Holds_ltF_iff (bind_numQ_int hvi) (bind_numQ_int hXn)).mp (hall _ (by simp))⟩
    · rintro ⟨h1, h2⟩
      intro f hf
      simp only [List.mem_cons, List.not_mem_nil, or_false] at hf
      rcases hf with rfl | rfl
      · exact (Holds_leF_iff (bind_numQ_int hsubP) (bind_numQ_int hvi)).mpr
          (by exact_mod_cast h1)
      · exact (Holds_ltF_iff (bind_numQ_int hvi) (bind_numQ_int hXn)).mpr h2
  have hguardQ : Holds (env.updI "i" n)
      (zAnd [ZX.leF (ZX.subF rr rl) (ZX.intVar "i"), ZX.ltF (ZX.intVar "i") rr]) ↔
      ((X - X : ℚ) ≤ (n : ℚ) ∧ (n : ℚ) < (X : ℚ)) := by
    rw [Holds_zAnd]
    constructor
    · intro hall
      exact ⟨by
        have := (Holds_leF_iff (bind_numQ_int hsubQ) (bind_numQ_int hvi)).mp
          (hall _ (by simp))
        exact_mod_cast this,
        (Holds_ltF_iff (bind_numQ_int hvi) (bind_numQ_int hYn)).mp (hall _ (by simp))⟩
    · rintro ⟨h1, h2⟩
      intro f hf
      simp only [List.mem_cons, List.not_mem_nil, or_false] at hf
      rcases hf with rfl | rfl
      · exact (Holds_leF_iff (bind_numQ_int hsubQ) (bind_numQ_int hvi)).mpr
          (by exact_mod_cast h1)
      · exact (Holds_ltF_iff (bind_numQ_int hvi) (bind_numQ_int hYn)).mpr h2
  have hbodyP : Holds (env.updI "i" n)
      (zOr [ZX.eqF (ZX.selF l (ZX.intVar "i"))
              (ZX.selF r (ZX.subF (ZX.intVar "i") (ZX.subF rl rr))),
            ZX.eqF (ZX.selF l (ZX.intVar "i")) (ZX.intVal 1),
            ZX.eqF (ZX.selF r (ZX.subF (ZX.intVar "i") (ZX.subF rl rr))) (ZX.intVal 1)]) ↔
      (fl n = fr n ∨ fl n = 1 ∨ fr n = 1) := by
    rw [Holds_zOr]
    simp only [List.mem_cons, List.mem_singleton, List.not_mem_nil]
    constructor
    · rintro ⟨f, hf | hf | hf | hf, hh⟩
      · subst hf
        exact Or.inl ((Holds_eqF_ii (evalT_selF_arr hfln hvi)
          (evalT_selF_arr hfrn hidxP)).mp hh)
      · subst hf
        exact Or.inr (Or.inl ((Holds_eqF_ii (evalT_selF_arr hfln hvi)
          (evalT_intVal _ 1)).mp hh))
      · subst hf
        exact Or.inr (Or.inr ((Holds_eqF_ii (evalT_selF_arr hfrn hidxP)
          (evalT_intVal _ 1)).mp hh))
      · cases hf
    · rintro (hh | hh | hh)
      · exact ⟨_, Or.inl rfl, (Holds_eqF_ii (evalT_selF_arr hfln hvi)
          (evalT_selF_arr hfrn hidxP)).mpr hh⟩
      · exact ⟨_, Or.inr (Or.inl rfl), (Holds_eqF_ii (evalT_selF_arr hfln hvi)
          (evalT_intVal _ 1)).mpr hh⟩
      · exact ⟨_, Or.inr (Or.inr (Or.inl rfl)), (Holds_eqF_ii (evalT_selF_arr hfrn hidxP)
          (evalT_intVal _ 1)).mpr hh⟩
  have hbodyQ : Holds (env.updI "i" n)
      (zOr [ZX.eqF (ZX.selF r (ZX.intVar "i"))
              (ZX.selF l (ZX.subF (ZX.intVar "i") (ZX.subF rr rl))),
            ZX.eqF (ZX.selF r (ZX.intVar "i")) (ZX.intVal 1),
            ZX.eqF (ZX.selF l (ZX.subF (ZX.intVar "i") (ZX.subF rr rl))) (ZX.intVal 1)]) ↔
      (fr n = fl n ∨ fr n = 1 ∨ fl n = 1) := by
    rw [Holds_zOr]
    simp only [List.mem_cons, List.mem_singleton, List.not_mem_nil]
    constructor
    · rintro ⟨f, hf | hf | hf | hf, hh⟩
      · subst hf
        exact Or.inl ((Holds_eqF_ii (evalT_selF_arr hfrn hvi)
          (evalT_selF_arr hfln hidxQ)).mp hh)
      · subst hf
        exact Or.inr (Or.inl ((Holds_eqF_ii (evalT_selF_arr hfrn hvi)
          (evalT_intVal _ 1)).mp hh))
      · subst hf
        exact Or.inr (Or.inr ((Holds_eqF_ii (evalT_selF_arr hfln hidxQ)
          (evalT_intVal _ 1)).mp hh))
      · cases hf
    · rintro (hh | hh | hh)
      · exact ⟨_, Or.inl rfl, (Holds_eqF_ii (evalT_selF_arr hfrn hvi)
          (evalT_selF_arr hfln hidxQ)).mpr hh⟩
      · exact ⟨_, Or.inr (Or.inl rfl), (Holds_eqF_ii (evalT_selF_arr hfrn hvi)
          (evalT_intVal _ 1)).mpr hh⟩
      · exact ⟨_, Or.inr (Or.inr (Or.inl rfl)), (Holds_eqF_ii (evalT_selF_arr hfln hidxQ)
          (evalT_intVal _ 1)).mpr hh⟩
  rw [hguardP, hguardQ, hbodyP, hbodyQ]
  constructor
  · intro h hg
    rcases h hg with hh | hh | hh
    · exact Or.inl hh.symm
    · exact Or.inr (Or.inr hh)
    · exact Or.inr (Or.inl hh)
  · intro h hg
    rcases h hg with hh | hh | hh
    · exact Or.inl hh.symm
    · exact Or.inr (Or.inr hh)
    · exact Or.inr (Or.inl hh)

theorem bc_pointwise {env : Env} {l rl r rr : ZX} {fl fr : ℤ → ℤ} {X Y : ℤ}
    (hX : evalT env rl = some (.i X)) (hY : evalT env rr = some (.i Y))
    (hfl : evalT env l = some (.arr fl)) (hfr : evalT env r = some (.arr fr))
    (hIl : ∀ n, evalT (env.updI "i" n) rl = evalT env rl)
    (hIr : ∀ n, evalT (env.updI "i" n) rr = evalT env rr)
    (hJl : ∀ n, evalT (env.updI "i" n) l = evalT env l)
    (hJr : ∀ n, evalT (env.updI "i" n) r = evalT env r) :
    Holds env (bcRaw l rl r rr) ↔ Holds env (bcRaw r rr l rl) := by
  rw [Holds_bcRaw, Holds_bcRaw]
  have hge : Holds env (ZX.geF rl rr) ↔ (Y : ℚ) ≤ (X : ℚ) :=
    Holds_geF_iff (bind_numQ_int hX) (bind_numQ_int hY)
  have hlt : Holds env (ZX.ltF rl rr) ↔ (X : ℚ) < (Y : ℚ) :=
    Holds_ltF_iff (bind_numQ_int hX) (bind_numQ_int hY)
  have hge2 : Holds env (ZX.geF rr rl) ↔ (X : ℚ) ≤ (Y : ℚ) :=
    Holds_geF_iff (bind_numQ_int hY) (bind_numQ_int hX)
  have hlt2 : Holds env (ZX.ltF rr rl) ↔ (Y : ℚ) < (X : ℚ) :=
    Holds_ltF_iff (bind_numQ_int hY) (bind_numQ_int hX)
  rcases lt_trichotomy X Y with hc | hc | hc
  · have hq : (X : ℚ) < (Y : ℚ) := by exact_mod_cast hc
    have g1 : ¬ Holds env (ZX.geF rl rr) := by rw [hge]; exact not_le.mpr hq
    have g2 : Holds env (ZX.ltF rl rr) := hlt.mpr hq
    have g3 : Holds env (ZX.geF rr rl) := hge2.mpr (le_of_lt hq)
    have g4 : ¬ Holds env (ZX.ltF rr rl) := by rw [hlt2]; exact not_lt.mpr (le_of_lt hq)
    constructor
    · rintro (⟨h, _⟩ | ⟨_, h⟩)
      · exact absurd h g1
      · exact Or.inl ⟨g3, h⟩
    · rintro (⟨_, h⟩ | ⟨h, _⟩)
      · exact Or.inr ⟨g2, h⟩
      · exact absurd h g4
  · subst hc
    have heq : Holds env (bcFa l rl r rr) ↔ Holds env (bcFa r rr l rl) :=
      bcFa_swap hX hY hfl hfr hIl hIr hJl hJr
    have g1 : Holds env (ZX.geF rl rr) := hge.mpr le_rfl
    have g2 : ¬ Holds env (ZX.ltF rl rr) := by rw [hlt]; exact lt_irrefl _
    have g3 : Holds env (ZX.geF rr rl) := hge2.mpr le_rfl
    have g4 : ¬ Holds env (ZX.ltF rr rl) := by rw [hlt2]; exact lt_irrefl _
    constructor
    · rintro (⟨_, h⟩ | ⟨h, _⟩)
      · exact Or.inl ⟨g3, heq.mp h⟩
      · exact absurd h g2
    · rintro (⟨_, h⟩ | ⟨h, _⟩)
      · exact Or.inl ⟨g1, heq.mpr h⟩
      · exact absurd h g4
  · have hq : (Y : ℚ) < (X : ℚ) := by exact_mod_cast hc
    have g1 : Holds env (ZX.geF rl rr) := hge.mpr (le_of_lt hq)
    have g2 : ¬ Holds env (ZX.ltF rl rr) := by rw [hlt]; exact not_lt.mpr (le_of_lt hq)
    have g3 : ¬ Holds env (ZX.geF rr rl) := by rw [hge2]; exact not_le.mpr hq
    have g4 : Holds env (ZX.ltF rr rl) := hlt2.mpr hq
    constructor
    · rintro (⟨_, h⟩ | ⟨h, _⟩)
      · exact Or.inr ⟨g4, h⟩
      · exact absurd h g2
    · rintro (⟨h, _⟩ | ⟨_, h⟩)
      · exact absurd h g3
      · exact Or.inl ⟨g1, h⟩

theorem encodeBcC_eval {d l r : Doc} {lz rz : ZX} {grl grr : GR}
    (hL : d.get? "left" = some l) (hR : d.get? "right" = some r)
    (hl : encodeExpShape l = .ok lz) (hr : encodeExpShape r = .ok rz)
    (hrl : getRank l = .ok grl) (hrr : getRank r = .ok grr) :
    encodeBcC d = .ok (bcFormZ lz grl.toZ rz grr.toZ) := by
  rw [encodeBcC, hL, hR]
  simp [hl, hr, hrl, hrr]

/-- C9: two `Broadcastable` documents with swapped operands encode (via
`_encodeBc`) to `bcFormZ` applied to the same encoded shapes and ranks
in swapped order, and the two resulting formulas are equisatisfiable.
`rlz`/`rrz` are the operands' `getRank` results after z3py's coercion
into the AST (`GR.toZ`, the coercion `_encodeBc` itself triggers).  The
hypotheses state that the coerced rank terms are Int-sorted and denote
integers, the shape terms denote arrays, and none of them capture the
internal bound index variable `i` — all true of the terms the encoder
produces from well-formed documents whose symbol names avoid `i`. -/
theorem claim_C9 (dL dR l r : Doc) (lz rz rlz rrz : ZX)
    (hL1 : dL.get? "left" = some l) (hR1 : dL.get? "right" = some r)
    (hL2 : dR.get? "left" = some r) (hR2 : dR.get? "right" = some l)
    (hl : encodeExpShape l = .ok lz) (hr : encodeExpShape r = .ok rz)
    (hrl : (getRank l).map GR.toZ = .ok rlz)
    (hrr : (getRank r).map GR.toZ = .ok rrz)
    (hli : rlz.isIntS = true) (hri : rrz.isIntS = true)
    (hDl : ∀ env, ∃ X, evalT env rlz = some (.i X))
    (hDr : ∀ env, ∃ Y, evalT env rrz = some (.i Y))
    (hAl : ∀ env, ∃ f, evalT env lz = some (.arr f))
    (hAr : ∀ env, ∃ f, evalT env rz = some (.arr f))
    (hIl : ∀ env n, evalT (env.updI "i" n) rlz = evalT env rlz)
    (hIr : ∀ env n, evalT (env.updI "i" n) rrz = evalT env rrz)
    (hJl : ∀ env n, evalT (env.updI "i" n) lz = evalT env lz)
    (hJr : ∀ env n, evalT (env.updI "i" n) rz = evalT env rz) :
    encodeBcC dL = .ok (bcFormZ lz rlz rz rrz) ∧
    encodeBcC dR = .ok (bcFormZ rz rrz lz rlz) ∧
    (Satisfiable (bcFormZ lz rlz rz rrz) ↔ Satisfiable (bcFormZ rz rrz lz rlz)) := by
  obtain ⟨grl, hgrl, hgrlz⟩ : ∃ g, getRank l = .ok g ∧ GR.toZ g = rlz := by
    cases hg : getRank l with
    | error e => rw [hg] at hrl; exact absurd hrl (by simp [Except.map])
    | ok g =>
        rw [hg] at hrl
        exact ⟨g, rfl, by simpa [Except.map] using hrl⟩
  obtain ⟨grr, hgrr, hgrrz⟩ : ∃ g, getRank r = .ok g ∧ GR.toZ g = rrz := by
    cases hg : getRank r with
    | error e => rw [hg] at hrr; exact absurd hrr (by simp [Except.map])
    | ok g =>
        rw [hg] at hrr
        exact ⟨g, rfl, by simpa [Except.map] using hrr⟩
  refine ⟨by rw [encodeBcC_eval hL1 hR1 hl hr hgrl hgrr, hgrlz, hgrrz],
    by rw [encodeBcC_eval hL2 hR2 hr hl hgrr hgrl, hgrlz, hgrrz], ?_⟩
  rw [bcFormZ_eq (sortOf_int_of_isIntS hli) (sortOf_int_of_isIntS hri),
      bcFormZ_eq (sortOf_int_of_isIntS hri) (sortOf_int_of_isIntS hli)]
  constructor
  · rintro ⟨env, h⟩
    obtain ⟨X, hX⟩ := hDl env
    obtain ⟨Y, hY⟩ := hDr env
    obtain ⟨fl, hfl⟩ := hAl env
    obtain ⟨fr, hfr⟩ := hAr env
    exact ⟨env, (bc_pointwise hX hY hfl hfr (fun n => (hIl env n).trans rfl)
      (fun n => hIr env n) (fun n => hJl env n) (fun n => hJr env n)).mp h⟩
  · rintro ⟨env, h⟩
    obtain ⟨X, hX⟩ := hDl env
    obtain ⟨Y, hY⟩ := hDr env
    obtain ⟨fl, hfl⟩ := hAl env
    obtain ⟨fr, hfr⟩ := hAr env
    exact ⟨env, (bc_pointwise hY hX hfr hfl (fun n => hIr env n)
      (fun n => hIl env n) (fun n => hJr env n) (fun n => hJl env n)).mp h⟩

/-- A constant shape document `[3]` of rank 1. -/
def shapeConstD2 : Doc :=
  Doc.obj [("expType", Doc.num 0), ("opType", Doc.num 0),
    ("dims", Doc.arr [numConstD 3]), ("rank", Doc.num 1)]

/-- The encoded z3 array of the constant shape `[3]`. -/
def shapeConstZ2 : ZX :=
  ZX.storeF (ZX.constArrF (ZX.intVal (-1))) (ZX.intVal 0) (ZX.intVal 3)

theorem encShape_const2 : encodeExpShape shapeConstD2 = .ok shapeConstZ2 := by
  rw [encodeExpShape]
  rw [show shapeConstD2.get? "expType" = some (Doc.num 0) from by
    simp [shapeConstD2, Doc.get?, lookupF]]
  simp only [Doc.isNum]
  rw [show shapeConstD2.get? "opType" = some (Doc.num 0) from by
    simp [shapeConstD2, Doc.get?, lookupF]]
  simp only [Doc.isNum]
  rw [show shapeConstD2.get? "dims" = some (Doc.arr [numConstD 3]) from by
    simp [shapeConstD2, Doc.get?, lookupF]]
  simp only [decide_True, if_true, decide_False]
  rw [storeDims]
  rw [encNum_intConst]
  simp only [ZX.isIntS, ZX.sortOf, decide_True, Bool.not_true, Bool.false_eq_true, if_false]
  rw [storeDims]
  rfl

theorem getRank_const2 : getRank shapeConstD2 = .ok (.rawI 1) := by
  rw [getRank]
  rw [show shapeConstD2.get? "expType" = some (Doc.num 0) from by
    simp [shapeConstD2, Doc.get?, lookupF]]
  simp only [Doc.isNum]
  rw [show shapeConstD2.get? "opType" = some (Doc.num 0) from by
    simp [shapeConstD2, Doc.get?, lookupF]]
  simp only [Doc.isNum]
  rw [show shapeConstD2.get? "rank" = some (Doc.num 1) from by
    simp [shapeConstD2, Doc.get?, lookupF]]
  simp

theorem evalT_constArr_neg1 (env : Env) :
    evalT env (ZX.constArrF (ZX.intVal (-1))) = some (.arr (fun _ => -1)) := by
  rw [evalT, evalT_intVal]

theorem evalT_store_const {env : Env} {a i v : ZX} {f : ℤ → ℤ} {n m : ℤ}
    (ha : evalT env a = some (.arr f)) (hi : evalT env i = some (.i n))
    (hv : evalT env v = some (.i m)) :
    evalT env (ZX.storeF a i v) = some (.arr (fun k => if k = n then m else f k)) := by
  rw [evalT, ha, hi, hv]

theorem evalT_shapeConstZ1 (env : Env) :
    evalT env shapeConstZ1 =
      some (.arr (fun k => if k = 0 then 2 else (fun _ => (-1 : ℤ)) k)) :=
  evalT_store_const (evalT_constArr_neg1 env) (evalT_intVal env 0) (evalT_intVal env 2)

theorem evalT_shapeConstZ2 (env : Env) :
    evalT env shapeConstZ2 =
      some (.arr (fun k => if k = 0 then 3 else (fun _ => (-1 : ℤ)) k)) :=
  evalT_store_const (evalT_constArr_neg1 env) (evalT_intVal env 0) (evalT_intVal env 3)

/-- The `Broadcastable([2], [3])` operand document. -/
def bcDocL : Doc := Doc.obj [("left", shapeConstD1), ("right", shapeConstD2)]

/-- The `Broadcastable([3], [2])` operand document. -/
def bcDocR : Doc := Doc.obj [("left", shapeConstD2), ("right", shapeConstD1)]

theorem claim_C9_witness :
    encodeBcC bcDocL =
      .ok (bcFormZ shapeConstZ1 (ZX.intVal 1) shapeConstZ2 (ZX.intVal 1)) ∧
    encodeBcC bcDocR =
      .ok (bcFormZ shapeConstZ2 (ZX.intVal 1) shapeConstZ1 (ZX.intVal 1)) ∧
    (Satisfiable (bcFormZ shapeConstZ1 (ZX.intVal 1) shapeConstZ2 (ZX.intVal 1)) ↔
     Satisfiable (bcFormZ shapeConstZ2 (ZX.intVal 1) shapeConstZ1 (ZX.intVal 1))) :=
  claim_C9 bcDocL bcDocR shapeConstD1 shapeConstD2 shapeConstZ1 shapeConstZ2
    (ZX.intVal 1) (ZX.intVal 1)
    (by simp [bcDocL, Doc.get?, lookupF])
    (by simp [bcDocL, Doc.get?, lookupF])
    (by simp [bcDocR, Doc.get?, lookupF])
    (by simp [bcDocR, Doc.get?, lookupF])
    encShape_const1 encShape_const2
    (by rw [getRank_const1]; rfl) (by rw [getRank_const2]; rfl)
    rfl rfl
    (fun env => ⟨1, evalT_intVal env 1⟩)
    (fun env => ⟨1, evalT_intVal env 1⟩)
    (fun env => ⟨_, evalT_shapeConstZ1 env⟩)
    (fun env => ⟨_, evalT_shapeConstZ2 env⟩)
    (fun env n => by rw [evalT_intVal, evalT_intVal])
    (fun env n => by rw [evalT_intVal, evalT_intVal])
    (fun env n => by rw [evalT_shapeConstZ1, evalT_shapeConstZ1])
    (fun env n => by rw [evalT_shapeConstZ2, evalT_shapeConstZ2])
